import Mathlib

/-!
Verification development for the `basic-acd` skill-based call dispatcher.

The Python sources (`src/states.py`, `src/response.py`, `src/operations.py`,
`src/dispatcher.py`) are shallowly embedded here.  The Redis store is modelled
as an explicit `Store` value:

* JSON documents keyed by string (`contact:<uuid>`, `agent:<id>`) become
  association lists `List (String × Contact)` / `List (String × Agent)`;
  `JSON.SET` on a whole key is `aset`, `JSON.SET`/`JSON.MSET` on a field path
  is `aupdate`, `JSON.DEL` is `aerase`.
* Redis sorted sets (the `queue` and each `{availAgentsSkill}:<skill>` index)
  become association lists `List (String × Nat)` from member to score;
  `ZADD` is `aset`, `ZREM` is `aerase`.  `BZPOPMIN` pops the entry with the
  least score (ties broken by member, as Redis orders members
  lexicographically within a score).  `ZINTER` keeps the members present in
  every input set and sorts them by the sum of their scores ascending, ties
  by member — the Redis default ordering.  `ZINTER` with zero input keys is a
  Redis error ("at least 1 input key is needed"), modelled as `none`.
* Wall-clock timestamps (`round(time.time()*1000)`) are passed in as an
  explicit `now : Nat` parameter.
* The per-agent advisory lock `f'{agent_key}:lock'` is modelled by
  `Store.locks : String → Bool`, true when the lock is held by another actor
  for the whole duration of the call (sustained contention — the only kind a
  sequential embedding can express).  Under sustained contention
  `lock.acquire()` times out, and the operation's `finally` block then runs
  `if await lock.locked(): await lock.release()`; redis-py's `locked()`
  checks key *existence* (true for the foreign holder), not ownership, and
  `release()` without an owned token raises `LockError`, which escapes the
  coroutine in place of its `return`.  The lock-taking operations therefore
  return `Store × OpResult`, with `OpResult.raisedLockError` for that
  escaping exception.  `Response(LOCKED)` is returned by the source only in
  the race where the foreign holder disappears between the acquire timeout
  and the `finally` check — an interleaving with no sequential
  representation, so the model never produces it.  A completed operation
  acquires and releases its own lock, leaving `locks` unchanged.
* Each operation is a function `Store → ... → Store × Response`, the
  sequential (quiescent) execution of the corresponding Python coroutine.
  Redis exceptions caught by the `except` blocks surface as `ERR` responses
  with the store left as it was when the command failed.
-/

/-- `states.py`: agent states (`AVAILABLE = 1`, `UNAVAILABLE = 0`). -/
inductive AGENT_STATE where
  | AVAILABLE
  | UNAVAILABLE
deriving DecidableEq, Repr

/-- `states.py`: ACD states (`OPEN = 1`, `CLOSED = 0`). -/
inductive ACD_STATE where
  | OPEN
  | CLOSED
deriving DecidableEq, Repr

/-- `states.py`: contact states (`QUEUED = 1`, `ASSIGNED = 2`, `COMPLETE = 3`). -/
inductive CONTACT_STATE where
  | QUEUED
  | ASSIGNED
  | COMPLETE
deriving DecidableEq, Repr

/-- `response.py`: response variants (`OK = 200`, `QUEUED = 202`, `LOCKED = 409`,
`ERR = 400`). -/
inductive RESPONSE_TYPE where
  | OK
  | QUEUED
  | LOCKED
  | ERR
deriving DecidableEq, Repr

/-- `response.py`: the `Response` object; `result` defaults to `None`. -/
structure Response where
  resp_type : RESPONSE_TYPE
  result : Option String := none
deriving DecidableEq, Repr

/-- Association-list lookup: the value stored at key `k` (first matching
entry). -/
def alookup {α : Type} : List (String × α) → String → Option α
  | [], _ => none
  | (k', v) :: t, k => if k' = k then some v else alookup t k

/-- Association-list write: replace the value at `k`, or append a fresh entry.
Models `JSON.SET key $ value` and `ZADD set member score`. -/
def aset {α : Type} : List (String × α) → String → α → List (String × α)
  | [], k, v => [(k, v)]
  | (k', v') :: t, k, v => if k' = k then (k, v) :: t else (k', v') :: aset t k v

/-- Association-list removal of every entry at `k`.  Models `JSON.DEL key` and
`ZREM set member`. -/
def aerase {α : Type} : List (String × α) → String → List (String × α)
  | [], _ => []
  | (k', v) :: t, k => if k' = k then aerase t k else (k', v) :: aerase t k

/-- Association-list in-place value update at `k` (no effect when `k` is
absent).  Models `JSON.SET key $.field value` / `JSON.MSET` on field paths. -/
def aupdate {α : Type} : List (String × α) → String → (α → α) → List (String × α)
  | [], _, _ => []
  | (k', v) :: t, k, f => if k' = k then (k', f v) :: t else (k', v) :: aupdate t k f

/-- The members of a sorted set (in representation order). -/
def zmembers (z : List (String × Nat)) : List String := z.map Prod.fst

/-- The candidate ordering used by Redis sorted-set results: by score
ascending, ties by member lexicographically. -/
def zleEntry (a b : String × Nat) : Bool :=
  decide (a.2 < b.2) || (decide (a.2 = b.2) && decide (a.1 < b.1))

/-- Minimum entry of a sorted set under `zleEntry` with initial candidate `p`. -/
def zminFrom (p : String × Nat) (z : List (String × Nat)) : String × Nat :=
  z.foldl (fun acc x => if zleEntry x acc then x else acc) p

/-- `BZPOPMIN`: remove and return the entry with the least score (ties broken
by member). `none` when the set is empty (the dispatcher blocks there). -/
def zpopmin (z : List (String × Nat)) : Option ((String × Nat) × List (String × Nat)) :=
  match z with
  | [] => none
  | p :: t =>
    let m := zminFrom p t
    some (m, aerase (p :: t) m.1)

/-- The `≤`-by-(score, member) comparison used to sort `ZINTER` results. -/
def pairLeB (a b : String × Nat) : Bool :=
  decide (a.2 < b.2) || (decide (a.2 = b.2) && decide (a.1 ≤ b.1))

/-- Insert an entry into a list sorted by `pairLeB`. -/
def insertPair (a : String × Nat) : List (String × Nat) → List (String × Nat)
  | [] => [a]
  | b :: t => if pairLeB a b then a :: b :: t else b :: insertPair a t

/-- Sort entries by score ascending (ties by member): the order in which
Redis returns sorted-set results. -/
def sortPairs : List (String × Nat) → List (String × Nat)
  | [] => []
  | a :: t => insertPair a (sortPairs t)

/-- `ZINTER` over a non-empty list of sets `z0 :: rest`: members present in all
sets, scored by the sum of their scores, ordered ascending. -/
def zinterPairs (z0 : List (String × Nat)) (rest : List (List (String × Nat))) :
    List (String × Nat) :=
  let cands := z0.filter (fun p => rest.all (fun z => (alookup z p.1).isSome))
  let scored := cands.map (fun p => (p.1, p.2 + (rest.map (fun z => (alookup z p.1).getD 0)).sum))
  sortPairs scored

/-- `ZINTER` as called by the dispatcher; with zero input keys Redis raises
("at least 1 input key is needed"), modelled as `none`. -/
def zinterAll : List (List (String × Nat)) → Option (List (String × Nat))
  | [] => none
  | z0 :: rest => some (zinterPairs z0 rest)

/-- A contact JSON document: `{'skills': [...], 'state': ..., 'agent': ...}`
(written by `create_contact`). -/
structure Contact where
  skills : List String
  state : CONTACT_STATE
  agent : Option String
deriving DecidableEq, Repr

/-- An agent JSON document: `{'id': ..., 'fname': ..., 'lname': ...,
'skills': [...], 'state': ...}` (written by `create_agent`). -/
structure Agent where
  id : String
  fname : String
  lname : String
  skills : List String
  state : AGENT_STATE
deriving DecidableEq, Repr

/-- The Redis store visible to the operations and the dispatcher. -/
structure Store where
  contacts : List (String × Contact)
  agents : List (String × Agent)
  queue : List (String × Nat)
  avail : String → List (String × Nat)
  locks : String → Bool

/-- The empty store: no documents, empty queue, empty availability indexes,
no lock held. -/
def emptyStore : Store :=
  { contacts := [], agents := [], queue := [], avail := fun _ => [], locks := fun _ => false }

/-- The advisory lock name `f'{agent_key}:lock'`. -/
def lockName (agent_key : String) : String := agent_key ++ ":lock"

/-- Point update of one availability index `{availAgentsSkill}:<skill>`. -/
def updAvail (st : Store) (skill : String) (f : List (String × Nat) → List (String × Nat)) :
    Store :=
  { st with avail := fun s => if s = skill then f (st.avail s) else st.avail s }

/-- The agent document stored at `agent_key`, if any. -/
def agentAt (st : Store) (agent_key : String) : Option Agent := alookup st.agents agent_key

/-- The contact document stored at `contact_key`, if any. -/
def contactAt (st : Store) (contact_key : String) : Option Contact :=
  alookup st.contacts contact_key

/-- `operations.create_contact`: write the contact JSON
(`state=QUEUED`, `agent=None`) and `ZADD` the key onto `queue` with the
current millisecond timestamp.  The fresh `contact:<uuid4>` key is passed in
as `contact_key`. -/
def create_contact (st : Store) (contact_key : String) (skills : List String) (now : Nat) :
    Store × Response :=
  let st1 := { st with
    contacts := aset st.contacts contact_key ⟨skills, CONTACT_STATE.QUEUED, none⟩ }
  let st2 := { st1 with queue := aset st1.queue contact_key now }
  (st2, ⟨RESPONSE_TYPE.OK, some contact_key⟩)

/-- `operations.complete_contact`: transactional pipeline setting
`$.state = COMPLETE` and a 1-hour TTL (expiry itself is wall-clock behaviour
and is not otherwise modelled).  `JSON.SET key $.state` on a missing key is a
Redis error, surfaced as `ERR`; the queue is *not* touched. -/
def complete_contact (st : Store) (contact_key : String) : Store × Response :=
  match alookup st.contacts contact_key with
  | none => (st, ⟨RESPONSE_TYPE.ERR, some ("complete_contact - " ++ contact_key)⟩)
  | some _ =>
    ({ st with contacts := (aupdate st.contacts contact_key
        (fun c => { c with state := CONTACT_STATE.COMPLETE })) },
     ⟨RESPONSE_TYPE.OK, some contact_key⟩)

/-- `operations.get_contact`: read-only fetch of the contact document. -/
def get_contact (st : Store) (contact_key : String) : Store × Response :=
  match alookup st.contacts contact_key with
  | none => (st, ⟨RESPONSE_TYPE.ERR, some ("get_contact - " ++ contact_key ++ " does not exist")⟩)
  | some _ => (st, ⟨RESPONSE_TYPE.OK, some contact_key⟩)

/-- The observable end of one lock-taking operation coroutine: either the
`Response` it returns, or the `LockError` that escapes it.  When
`lock.acquire()` times out while the foreign holder persists, the `finally`
block sees `lock.locked()` = true (key existence, not ownership), calls
`lock.release()` without owning the token, and redis-py raises `LockError`,
pre-empting the `return Response(resp_type, result)`. -/
inductive OpResult where
  | ret (r : Response)
  | raisedLockError
deriving DecidableEq, Repr

/-- `operations.create_agent`: under the per-agent lock, reject an existing
key, otherwise write the agent JSON with `state = UNAVAILABLE`.  Sustained
contention raises `LockError` out of the `finally` block. -/
def create_agent (st : Store) (agent_key : String) (fname lname : String)
    (skills : List String) : Store × OpResult :=
  if st.locks (lockName agent_key) then (st, OpResult.raisedLockError)
  else
    match alookup st.agents agent_key with
    | some _ =>
      (st, OpResult.ret
        ⟨RESPONSE_TYPE.ERR, some ("create_agent - agent " ++ agent_key ++ " already exists")⟩)
    | none =>
      ({ st with agents := (aset st.agents agent_key
          ⟨agent_key, fname, lname, skills, AGENT_STATE.UNAVAILABLE⟩) },
       OpResult.ret ⟨RESPONSE_TYPE.OK, some agent_key⟩)

/-- `operations.delete_agent`: under the per-agent lock, `ZREM` the agent from
`{availAgentsSkill}:<skill>` for each skill in its list, then delete the agent
JSON. -/
def delete_agent (st : Store) (agent_key : String) : Store × OpResult :=
  if st.locks (lockName agent_key) then (st, OpResult.raisedLockError)
  else
    match alookup st.agents agent_key with
    | none =>
      (st, OpResult.ret
        ⟨RESPONSE_TYPE.ERR, some ("delete_agent - agent " ++ agent_key ++ " does not exist")⟩)
    | some a =>
      let st1 := a.skills.foldl (fun acc sk => updAvail acc sk (fun z => aerase z agent_key)) st
      ({ st1 with agents := aerase st1.agents agent_key },
       OpResult.ret ⟨RESPONSE_TYPE.OK, some agent_key⟩)

/-- One loop iteration of `operations.set_agent_state`, split into its two
store round-trips: the index update (`ZADD` on transition to `AVAILABLE`,
`ZREM` on transition to `UNAVAILABLE`) followed by the `JSON.SET` of
`$.state` — the state write sits *inside* the per-skill loop in the source. -/
def sasSkillSteps (agent_key : String) (target : AGENT_STATE) (now : Nat) (skill : String) :
    List (Store → Store) :=
  match target with
  | AGENT_STATE.AVAILABLE =>
    [fun st => updAvail st skill (fun z => aset z agent_key now),
     fun st => { st with agents := (aupdate st.agents agent_key
        (fun a => { a with state := AGENT_STATE.AVAILABLE })) }]
  | AGENT_STATE.UNAVAILABLE =>
    [fun st => updAvail st skill (fun z => aerase z agent_key),
     fun st => { st with agents := (aupdate st.agents agent_key
        (fun a => { a with state := AGENT_STATE.UNAVAILABLE })) }]

/-- The full sequence of store round-trips performed by the skill loop of
`set_agent_state`. -/
def sasSteps (agent_key : String) (target : AGENT_STATE) (now : Nat)
    (skills : List String) : List (Store → Store) :=
  skills.flatMap (sasSkillSteps agent_key target now)

/-- Run a sequence of store round-trips. -/
def applySteps (st : Store) (fs : List (Store → Store)) : Store :=
  fs.foldl (fun s f => f s) st

/-- Every store state observable during a sequence of round-trips, starting
from the initial state. -/
def statesAlong (st : Store) : List (Store → Store) → List Store
  | [] => [st]
  | f :: fs => st :: statesAlong (f st) fs

/-- `operations.set_agent_state`: under the per-agent lock, `ERR` when the
agent is missing or already in the target state; otherwise run the per-skill
loop (`sasSteps`). -/
def set_agent_state (st : Store) (agent_key : String) (target : AGENT_STATE) (now : Nat) :
    Store × OpResult :=
  if st.locks (lockName agent_key) then (st, OpResult.raisedLockError)
  else
    match alookup st.agents agent_key with
    | none =>
      (st, OpResult.ret
        ⟨RESPONSE_TYPE.ERR, some ("set_agent_state - " ++ agent_key ++ " does not exist")⟩)
    | some a =>
      if a.state = target then
        (st, OpResult.ret
          ⟨RESPONSE_TYPE.ERR, some ("set_agent_state - " ++ agent_key ++ " already in state")⟩)
      else
        (applySteps st (sasSteps agent_key target now a.skills),
         OpResult.ret ⟨RESPONSE_TYPE.OK, some agent_key⟩)

/-- `operations.change_agent_info`: `JSON.MSET` of `$.fname` and `$.lname`.
Note: the source takes *no* advisory lock here. -/
def change_agent_info (st : Store) (agent_key : String) (fname lname : String) :
    Store × Response :=
  match alookup st.agents agent_key with
  | none =>
    (st, ⟨RESPONSE_TYPE.ERR, some ("change_agent_info - " ++ agent_key ++ " does not exist")⟩)
  | some _ =>
    ({ st with agents := (aupdate st.agents agent_key
        (fun a => { a with fname := fname, lname := lname })) },
     ⟨RESPONSE_TYPE.OK, some agent_key⟩)

/-- `operations.add_agent_skill`: under the per-agent lock, `JSON.ARRAPPEND`
the skill (no duplicate check), then `ZADD` the availability index when the
agent is currently `AVAILABLE`. -/
def add_agent_skill (st : Store) (agent_key : String) (skill : String) (now : Nat) :
    Store × OpResult :=
  if st.locks (lockName agent_key) then (st, OpResult.raisedLockError)
  else
    match alookup st.agents agent_key with
    | none =>
      (st, OpResult.ret
        ⟨RESPONSE_TYPE.ERR, some ("add_agent_skill - " ++ agent_key ++ " does not exist")⟩)
    | some a =>
      let st1 := { st with agents := (aupdate st.agents agent_key
          (fun a0 => { a0 with skills := a0.skills ++ [skill] })) }
      let st2 :=
        if a.state = AGENT_STATE.AVAILABLE then
          updAvail st1 skill (fun z => aset z agent_key now)
        else st1
      (st2, OpResult.ret ⟨RESPONSE_TYPE.OK, some agent_key⟩)

/-- `operations.delete_agent_skill`: under the per-agent lock,
`JSON.ARRINDEX` the skill; when present, `JSON.ARRPOP` that (first) occurrence
and `ZREM` the agent from the skill's availability index; otherwise `ERR`. -/
def delete_agent_skill (st : Store) (agent_key : String) (skill : String) :
    Store × OpResult :=
  if st.locks (lockName agent_key) then (st, OpResult.raisedLockError)
  else
    match alookup st.agents agent_key with
    | none =>
      (st, OpResult.ret
        ⟨RESPONSE_TYPE.ERR, some ("delete_agent_skill - " ++ agent_key ++ " does not exist")⟩)
    | some a =>
      if skill ∈ a.skills then
        let st1 := { st with agents := (aupdate st.agents agent_key
            (fun a0 => { a0 with skills := a0.skills.erase skill })) }
        let st2 := updAvail st1 skill (fun z => aerase z agent_key)
        (st2, OpResult.ret ⟨RESPONSE_TYPE.OK, some agent_key⟩)
      else
        (st, OpResult.ret
          ⟨RESPONSE_TYPE.ERR, some ("delete_agent_skill - agent does not have skill " ++ skill)⟩)

/-- The agent scan of `delete_skill`: call `delete_agent_skill` on each key
in turn (absent skill → per-agent `ERR`, ignored).  A `LockError` escaping
one call aborts the scan: `delete_skill`'s own `except` catches it.  The
`Bool` records whether the scan raised. -/
def scanDeleteSkill (skill : String) : Store → List String → Store × Bool
  | st, [] => (st, false)
  | st, k :: rest =>
    match delete_agent_skill st k skill with
    | (st', OpResult.raisedLockError) => (st', true)
    | (st', OpResult.ret _) => scanDeleteSkill skill st' rest

/-- `operations.delete_skill`: delete the whole availability index for the
skill, then scan every `agent:*` key and call `delete_agent_skill` on it.
A `LockError` raised by a contended `delete_agent_skill` is caught by the
surrounding `except`, which returns `ERR` with the scan left partial. -/
def delete_skill (st : Store) (skill : String) : Store × Response :=
  let st1 := { st with avail := fun s => if s = skill then [] else st.avail s }
  match scanDeleteSkill skill st1 (st1.agents.map Prod.fst) with
  | (st2, false) => (st2, ⟨RESPONSE_TYPE.OK, some skill⟩)
  | (st2, true) => (st2, ⟨RESPONSE_TYPE.ERR, some "delete_skill - LockError"⟩)

/-- The integer wire value of an ACD state (`OPEN = 1`, `CLOSED = 0`). -/
def acdValue : ACD_STATE → Nat
  | ACD_STATE.OPEN => 1
  | ACD_STATE.CLOSED => 0

/-- The agent scan of `set_acd_state`: call `set_agent_state` on each key in
turn; per-agent `ERR` responses are swallowed, but a `LockError` escaping one
call aborts the scan (caught by `set_acd_state`'s own `except`).  The `Bool`
records whether the scan raised. -/
def scanSetState (target : AGENT_STATE) (now : Nat) : Store → List String → Store × Bool
  | st, [] => (st, false)
  | st, k :: rest =>
    match set_agent_state st k target now with
    | (st', OpResult.raisedLockError) => (st', true)
    | (st', OpResult.ret _) => scanSetState target now st' rest

/-- `operations.set_acd_state`: scan every agent key and call
`set_agent_state` with `AVAILABLE` (OPEN) or `UNAVAILABLE` (CLOSED); per-agent
`ERR` responses are swallowed, while a `LockError` raised by a contended call
is caught by the surrounding `except`, which returns `ERR` with the scan left
partial. -/
def set_acd_state (st : Store) (acd : ACD_STATE) (now : Nat) : Store × Response :=
  let target := match acd with
    | ACD_STATE.OPEN => AGENT_STATE.AVAILABLE
    | ACD_STATE.CLOSED => AGENT_STATE.UNAVAILABLE
  match scanSetState target now st (st.agents.map Prod.fst) with
  | (st2, false) => (st2, ⟨RESPONSE_TYPE.OK, some (toString (acdValue acd))⟩)
  | (st2, true) => (st2, ⟨RESPONSE_TYPE.ERR, some "set_acd_state - LockError"⟩)

/-- Outcome of one dispatcher loop iteration. -/
inductive DispResult where
  | idle
  | errored (contact_key : String)
  | assigned (contact_key agent_key : String)
  | dropped (contact_key : String)
  | requeued (contact_key : String) (score : Nat)
deriving DecidableEq, Repr

/-- How the dispatcher's claim loop ends: a winning candidate, an exhausted
candidate list, or a `LockError` escaping a contended `set_agent_state`
(which propagates to the iteration's `except`). -/
inductive ClaimOutcome where
  | winner (agent_key : String)
  | exhausted
  | raised
deriving DecidableEq, Repr

/-- The dispatcher's claim loop (`dispatcher.py` lines 46–53): attempt
`set_agent_state(candidate, UNAVAILABLE)` on each candidate in order; the
first `OK` result wins; `ERR` responses move to the next candidate; a
`LockError` escaping a contended call aborts the loop. -/
def tryClaim (now : Nat) : Store → List String → Store × ClaimOutcome
  | st, [] => (st, ClaimOutcome.exhausted)
  | st, k :: rest =>
    match set_agent_state st k AGENT_STATE.UNAVAILABLE now with
    | (st', OpResult.raisedLockError) => (st', ClaimOutcome.raised)
    | (st', OpResult.ret r) =>
      if r.resp_type = RESPONSE_TYPE.OK then (st', ClaimOutcome.winner k)
      else tryClaim now st' rest

/-- One iteration of `dispatcher.dispatch`:
`BZPOPMIN queue`; read `$.skills`; `ZINTER` the per-skill availability
indexes; claim candidates in order; on a win `JSON.MSET` the contact's
`$.agent` and `$.state = ASSIGNED`; with no winner re-read `$.state` and
either drop a `COMPLETE` contact or `ZADD` it back with `score + 1000`.
The surrounding `try/except` turns a mid-iteration error (missing contact
document, `ZINTER` called with zero keys for an empty skills list, or a
`LockError` escaping a contended claim) into a logged no-op: the contact
stays popped. -/
def dispatchIteration (st : Store) (now : Nat) : Store × DispResult :=
  match zpopmin st.queue with
  | none => (st, DispResult.idle)
  | some ((contact_key, score), q') =>
    let st1 := { st with queue := q' }
    match alookup st1.contacts contact_key with
    | none => (st1, DispResult.errored contact_key)
    | some c =>
      match zinterAll (c.skills.map st1.avail) with
      | none => (st1, DispResult.errored contact_key)
      | some cands =>
        match tryClaim now st1 (cands.map Prod.fst) with
        | (st2, ClaimOutcome.raised) => (st2, DispResult.errored contact_key)
        | (st2, ClaimOutcome.winner winner) =>
          ({ st2 with contacts := (aupdate st2.contacts contact_key
              (fun c0 => { c0 with agent := some winner, state := CONTACT_STATE.ASSIGNED })) },
           DispResult.assigned contact_key winner)
        | (st2, ClaimOutcome.exhausted) =>
          match alookup st2.contacts contact_key with
          | none => (st2, DispResult.errored contact_key)
          | some c2 =>
            if c2.state = CONTACT_STATE.COMPLETE then (st2, DispResult.dropped contact_key)
            else
              ({ st2 with queue := aset st2.queue contact_key (score + 1000) },
               DispResult.requeued contact_key (score + 1000))

/-! ### Association-list lemmas -/

theorem alookup_aset_self {α : Type} (l : List (String × α)) (k : String) (v : α) :
    alookup (aset l k v) k = some v := by
  induction l with
  | nil => simp [aset, alookup]
  | cons p t ih =>
    by_cases h : p.1 = k
    · simp [aset, alookup, h]
    · simp [aset, alookup, h, ih]

theorem alookup_aset_ne {α : Type} (l : List (String × α)) {k k' : String} (v : α)
    (h : k' ≠ k) : alookup (aset l k v) k' = alookup l k' := by
  have h2 : ¬ k = k' := fun hh => h hh.symm
  induction l with
  | nil => simp [aset, alookup, h2]
  | cons p t ih =>
    obtain ⟨pk, pv⟩ := p
    by_cases hp : pk = k
    · subst hp
      simp [aset, alookup, h2]
    · by_cases hp' : pk = k'
      · simp [aset, alookup, hp, hp', h]
      · simp [aset, alookup, hp, hp', ih]

theorem alookup_aerase_self {α : Type} (l : List (String × α)) (k : String) :
    alookup (aerase l k) k = none := by
  induction l with
  | nil => simp [aerase, alookup]
  | cons p t ih =>
    by_cases h : p.1 = k
    · simp [aerase, h, ih]
    · simp [aerase, alookup, h, ih]

theorem alookup_aerase_ne {α : Type} (l : List (String × α)) {k k' : String}
    (h : k' ≠ k) : alookup (aerase l k) k' = alookup l k' := by
  have h2 : ¬ k = k' := fun hh => h hh.symm
  induction l with
  | nil => simp [aerase]
  | cons p t ih =>
    obtain ⟨pk, pv⟩ := p
    by_cases hp : pk = k
    · subst hp
      simp [aerase, alookup, h2, ih]
    · by_cases hp' : pk = k'
      · simp [aerase, alookup, hp, hp', h]
      · simp [aerase, alookup, hp, hp', ih]

theorem alookup_aupdate_self {α : Type} (l : List (String × α)) (k : String) (f : α → α) :
    alookup (aupdate l k f) k = (alookup l k).map f := by
  induction l with
  | nil => simp [aupdate, alookup]
  | cons p t ih =>
    by_cases h : p.1 = k
    · simp [aupdate, alookup, h]
    · simp [aupdate, alookup, h, ih]

theorem alookup_aupdate_ne {α : Type} (l : List (String × α)) {k k' : String} (f : α → α)
    (h : k' ≠ k) : alookup (aupdate l k f) k' = alookup l k' := by
  have h2 : ¬ k = k' := fun hh => h hh.symm
  induction l with
  | nil => simp [aupdate]
  | cons p t ih =>
    obtain ⟨pk, pv⟩ := p
    by_cases hp : pk = k
    · subst hp
      simp [aupdate, alookup, h2]
    · by_cases hp' : pk = k'
      · simp [aupdate, alookup, hp, hp', h]
      · simp [aupdate, alookup, hp, hp', ih]

theorem keys_aupdate {α : Type} (l : List (String × α)) (k : String) (f : α → α) :
    (aupdate l k f).map Prod.fst = l.map Prod.fst := by
  induction l with
  | nil => simp [aupdate]
  | cons p t ih =>
    by_cases h : p.1 = k
    · simp [aupdate, h]
    · simp [aupdate, h, ih]

theorem mem_keys_of_alookup {α : Type} {l : List (String × α)} {k : String} {v : α}
    (h : alookup l k = some v) : k ∈ l.map Prod.fst := by
  induction l with
  | nil => simp [alookup] at h
  | cons p t ih =>
    rw [List.map_cons, List.mem_cons]
    by_cases hp : p.1 = k
    · exact Or.inl hp.symm
    · simp only [alookup, hp, if_false] at h
      exact Or.inr (ih h)

theorem alookup_isSome_of_mem_keys {α : Type} {l : List (String × α)} {k : String}
    (h : k ∈ l.map Prod.fst) : (alookup l k).isSome := by
  induction l with
  | nil => simp at h
  | cons p t ih =>
    by_cases hp : p.1 = k
    · simp [alookup, hp]
    · rw [List.map_cons, List.mem_cons] at h
      rcases h with h | h
      · exact absurd h.symm hp
      · simp only [alookup, hp, if_false]
        exact ih h

theorem mem_zmembers_iff_isSome {z : List (String × Nat)} {k : String} :
    k ∈ zmembers z ↔ (alookup z k).isSome := by
  constructor
  · exact fun h => alookup_isSome_of_mem_keys h
  · intro h
    rcases Option.isSome_iff_exists.mp h with ⟨v, hv⟩
    exact mem_keys_of_alookup hv

theorem mem_zmembers_aset {z : List (String × Nat)} {a k : String} {v : Nat} :
    a ∈ zmembers (aset z k v) ↔ a ∈ zmembers z ∨ a = k := by
  induction z with
  | nil => simp [aset, zmembers, eq_comm]
  | cons p t ih =>
    obtain ⟨pk, pv⟩ := p
    by_cases h : pk = k
    · subst h
      have e : aset ((pk, pv) :: t) pk v = (pk, v) :: t := by simp [aset]
      rw [e]
      simp only [zmembers, List.map_cons, List.mem_cons]
      tauto
    · have e : aset ((pk, pv) :: t) k v = (pk, pv) :: aset t k v := by simp [aset, h]
      rw [e]
      simp only [zmembers, List.map_cons, List.mem_cons]
      rw [show (List.map Prod.fst (aset t k v) = zmembers (aset t k v)) from rfl,
        show (List.map Prod.fst t = zmembers t) from rfl]
      rw [ih]
      tauto

theorem mem_zmembers_aerase {z : List (String × Nat)} {a k : String} :
    a ∈ zmembers (aerase z k) ↔ a ∈ zmembers z ∧ a ≠ k := by
  induction z with
  | nil => simp [aerase, zmembers]
  | cons p t ih =>
    obtain ⟨pk, pv⟩ := p
    by_cases h : pk = k
    · subst h
      have e : aerase ((pk, pv) :: t) pk = aerase t pk := by simp [aerase]
      rw [e, ih]
      simp only [zmembers, List.map_cons, List.mem_cons]
      constructor
      · rintro ⟨hm, hne⟩
        exact ⟨Or.inr hm, hne⟩
      · rintro ⟨hm | hm, hne⟩
        · exact absurd hm hne
        · exact ⟨hm, hne⟩
    · have e : aerase ((pk, pv) :: t) k = (pk, pv) :: aerase t k := by simp [aerase, h]
      rw [e]
      simp only [zmembers, List.map_cons, List.mem_cons]
      rw [show (List.map Prod.fst (aerase t k) = zmembers (aerase t k)) from rfl,
        show (List.map Prod.fst t = zmembers t) from rfl]
      rw [ih]
      constructor
      · rintro (hm | ⟨hm, hne⟩)
        · subst hm
          exact ⟨Or.inl rfl, fun hh => h hh⟩
        · exact ⟨Or.inr hm, hne⟩
      · rintro ⟨hm | hm, hne⟩
        · exact Or.inl hm
        · exact Or.inr ⟨hm, hne⟩

theorem aerase_aerase {α : Type} (l : List (String × α)) (k : String) :
    aerase (aerase l k) k = aerase l k := by
  induction l with
  | nil => simp [aerase]
  | cons p t ih =>
    by_cases h : p.1 = k
    · simp [aerase, h, ih]
    · simp [aerase, h, ih]

theorem aset_aset_same {α : Type} (l : List (String × α)) (k : String) (v : α) :
    aset (aset l k v) k v = aset l k v := by
  induction l with
  | nil => simp [aset]
  | cons p t ih =>
    by_cases h : p.1 = k
    · simp [aset, h]
    · simp [aset, h, ih]

theorem aupdate_aupdate {α : Type} (l : List (String × α)) (k : String) (f : α → α)
    (hf : ∀ a, f (f a) = f a) : aupdate (aupdate l k f) k f = aupdate l k f := by
  induction l with
  | nil => simp [aupdate]
  | cons p t ih =>
    by_cases h : p.1 = k
    · simp [aupdate, h, hf]
    · simp [aupdate, h, ih]

/-! ### Sorting lemmas for the `ZINTER` candidate order -/

theorem mem_insertPair {a x : String × Nat} {l : List (String × Nat)} :
    x ∈ insertPair a l ↔ x = a ∨ x ∈ l := by
  induction l with
  | nil => simp [insertPair]
  | cons b t ih =>
    by_cases h : pairLeB a b
    · simp [insertPair, h]
    · simp [insertPair, h, ih]
      tauto

theorem mem_sortPairs {x : String × Nat} {l : List (String × Nat)} :
    x ∈ sortPairs l ↔ x ∈ l := by
  induction l with
  | nil => simp [sortPairs]
  | cons a t ih =>
    simp [sortPairs, mem_insertPair, ih]

theorem score_le_of_pairLeB {a b : String × Nat} (h : pairLeB a b = true) : a.2 ≤ b.2 := by
  simp only [pairLeB, Bool.or_eq_true, Bool.and_eq_true, decide_eq_true_eq] at h
  rcases h with h | ⟨h, _⟩
  · exact Nat.le_of_lt h
  · exact Nat.le_of_eq h

theorem score_le_of_not_pairLeB {a b : String × Nat} (h : ¬ pairLeB a b = true) : b.2 ≤ a.2 := by
  simp only [pairLeB, Bool.or_eq_true, Bool.and_eq_true, decide_eq_true_eq] at h
  push_neg at h
  exact h.1

theorem pairwise_insertPair {a : String × Nat} {l : List (String × Nat)}
    (h : l.Pairwise (fun p q => p.2 ≤ q.2)) :
    (insertPair a l).Pairwise (fun p q => p.2 ≤ q.2) := by
  induction l with
  | nil => simp [insertPair]
  | cons b t ih =>
    rcases List.pairwise_cons.mp h with ⟨hb, ht⟩
    by_cases hab : pairLeB a b
    · simp only [insertPair, hab, if_true]
      refine List.pairwise_cons.mpr ⟨?_, h⟩
      intro x hx
      rcases List.mem_cons.mp hx with hx | hx
      · subst hx
        exact score_le_of_pairLeB hab
      · exact Nat.le_trans (score_le_of_pairLeB hab) (hb x hx)
    · simp only [insertPair, hab, if_false, Bool.false_eq_true]
      refine List.pairwise_cons.mpr ⟨?_, ih ht⟩
      intro x hx
      rcases mem_insertPair.mp hx with hx | hx
      · subst hx
        exact score_le_of_not_pairLeB hab
      · exact hb x hx

theorem pairwise_sortPairs (l : List (String × Nat)) :
    (sortPairs l).Pairwise (fun p q => p.2 ≤ q.2) := by
  induction l with
  | nil => simp [sortPairs]
  | cons a t ih => exact pairwise_insertPair ih

/-- Every `ZINTER` result comes out sorted by summed score ascending. -/
theorem pairwise_zinterPairs (z0 : List (String × Nat)) (rest : List (List (String × Nat))) :
    (zinterPairs z0 rest).Pairwise (fun p q => p.2 ≤ q.2) := by
  unfold zinterPairs
  exact pairwise_sortPairs _

/-- A `ZINTER` result member is a member of the first input set. -/
theorem zinterPairs_mem_first {z0 : List (String × Nat)} {rest : List (List (String × Nat))}
    {p : String × Nat} (h : p ∈ zinterPairs z0 rest) : p.1 ∈ zmembers z0 := by
  unfold zinterPairs at h
  rcases List.mem_map.mp (mem_sortPairs.mp h) with ⟨q, hq, hpq⟩
  have hq0 : q ∈ z0 := List.mem_of_mem_filter hq
  have : p.1 = q.1 := by rw [← hpq]
  rw [this]
  exact List.mem_map.mpr ⟨q, hq0, rfl⟩

/-! ### Structure of the `set_agent_state` skill loop -/

theorem applySteps_append (st : Store) (fs gs : List (Store → Store)) :
    applySteps st (fs ++ gs) = applySteps (applySteps st fs) gs := by
  simp [applySteps, List.foldl_append]

theorem sasSteps_cons (k : String) (target : AGENT_STATE) (now : Nat) (s : String)
    (l : List String) :
    sasSteps k target now (s :: l) = sasSkillSteps k target now s ++ sasSteps k target now l := by
  simp [sasSteps]

theorem sas_apply_contacts (k : String) (target : AGENT_STATE) (now : Nat) :
    ∀ (l : List String) (st : Store),
    (applySteps st (sasSteps k target now l)).contacts = st.contacts := by
  intro l
  induction l with
  | nil => intro st; rfl
  | cons s t ih =>
    intro st
    rw [sasSteps_cons, applySteps_append, ih]
    cases target <;> rfl

theorem sas_apply_queue (k : String) (target : AGENT_STATE) (now : Nat) :
    ∀ (l : List String) (st : Store),
    (applySteps st (sasSteps k target now l)).queue = st.queue := by
  intro l
  induction l with
  | nil => intro st; rfl
  | cons s t ih =>
    intro st
    rw [sasSteps_cons, applySteps_append, ih]
    cases target <;> rfl

theorem sas_apply_locks (k : String) (target : AGENT_STATE) (now : Nat) :
    ∀ (l : List String) (st : Store),
    (applySteps st (sasSteps k target now l)).locks = st.locks := by
  intro l
  induction l with
  | nil => intro st; rfl
  | cons s t ih =>
    intro st
    rw [sasSteps_cons, applySteps_append, ih]
    cases target <;> rfl

theorem sas_apply_avail_unavail (k : String) (now : Nat) :
    ∀ (l : List String) (st : Store) (s : String),
    (applySteps st (sasSteps k AGENT_STATE.UNAVAILABLE now l)).avail s =
      if s ∈ l then aerase (st.avail s) k else st.avail s := by
  intro l
  induction l with
  | nil => intro st s; simp [sasSteps, applySteps]
  | cons s0 t ih =>
    intro st s
    rw [sasSteps_cons, applySteps_append, ih]
    have hX : ∀ s', (applySteps st (sasSkillSteps k AGENT_STATE.UNAVAILABLE now s0)).avail s' =
        if s' = s0 then aerase (st.avail s') k else st.avail s' := fun s' => rfl
    by_cases hs0 : s = s0
    · subst hs0
      by_cases hs : s ∈ t
      · simp [hs, hX, aerase_aerase]
      · simp [hs, hX]
    · by_cases hs : s ∈ t
      · simp [hs, hs0, hX]
      · simp [hs, hs0, hX]

theorem sas_apply_avail_avail (k : String) (now : Nat) :
    ∀ (l : List String) (st : Store) (s : String),
    (applySteps st (sasSteps k AGENT_STATE.AVAILABLE now l)).avail s =
      if s ∈ l then aset (st.avail s) k now else st.avail s := by
  intro l
  induction l with
  | nil => intro st s; simp [sasSteps, applySteps]
  | cons s0 t ih =>
    intro st s
    rw [sasSteps_cons, applySteps_append, ih]
    have hX : ∀ s', (applySteps st (sasSkillSteps k AGENT_STATE.AVAILABLE now s0)).avail s' =
        if s' = s0 then aset (st.avail s') k now else st.avail s' := fun s' => rfl
    by_cases hs0 : s = s0
    · subst hs0
      by_cases hs : s ∈ t
      · simp [hs, hX, aset_aset_same]
      · simp [hs, hX]
    · by_cases hs : s ∈ t
      · simp [hs, hs0, hX]
      · simp [hs, hs0, hX]

theorem sas_apply_agents (k : String) (target : AGENT_STATE) (now : Nat) :
    ∀ (l : List String) (st : Store), l ≠ [] →
    (applySteps st (sasSteps k target now l)).agents =
      aupdate st.agents k (fun a => { a with state := target }) := by
  intro l
  induction l with
  | nil => intro st h; exact absurd rfl h
  | cons s0 t ih =>
    intro st _
    rw [sasSteps_cons, applySteps_append]
    by_cases ht : t = []
    · subst ht
      cases target <;> rfl
    · rw [ih _ ht]
      cases target
      · exact aupdate_aupdate st.agents k _ (fun a => rfl)
      · exact aupdate_aupdate st.agents k _ (fun a => rfl)

/-! ### `set_agent_state` case lemmas -/

theorem sas_contended {st : Store} {k : String} (target : AGENT_STATE) (now : Nat)
    (h : st.locks (lockName k) = true) :
    set_agent_state st k target now = (st, OpResult.raisedLockError) := by
  simp [set_agent_state, h]

theorem sas_missing {st : Store} {k : String} (target : AGENT_STATE) (now : Nat)
    (hl : st.locks (lockName k) = false) (h : alookup st.agents k = none) :
    set_agent_state st k target now =
      (st, OpResult.ret
        ⟨RESPONSE_TYPE.ERR, some ("set_agent_state - " ++ k ++ " does not exist")⟩) := by
  simp [set_agent_state, hl, h]

theorem sas_already {st : Store} {k : String} {a : Agent} {target : AGENT_STATE} (now : Nat)
    (hl : st.locks (lockName k) = false) (h : alookup st.agents k = some a)
    (hs : a.state = target) :
    set_agent_state st k target now =
      (st, OpResult.ret
        ⟨RESPONSE_TYPE.ERR, some ("set_agent_state - " ++ k ++ " already in state")⟩) := by
  simp [set_agent_state, hl, h, hs]

theorem sas_ok {st : Store} {k : String} {a : Agent} {target : AGENT_STATE} (now : Nat)
    (hl : st.locks (lockName k) = false) (h : alookup st.agents k = some a)
    (hs : a.state ≠ target) :
    set_agent_state st k target now =
      (applySteps st (sasSteps k target now a.skills),
       OpResult.ret ⟨RESPONSE_TYPE.OK, some k⟩) := by
  simp [set_agent_state, hl, h, hs]

/-- A lock-free `set_agent_state` call always returns a `Response` (the
`LockError` path needs contention). -/
theorem sas_not_raised {st : Store} {k : String} (target : AGENT_STATE) (now : Nat)
    (hl : st.locks (lockName k) = false) :
    ∃ r, (set_agent_state st k target now).2 = OpResult.ret r := by
  match hls : alookup st.agents k with
  | none => exact ⟨_, by rw [sas_missing target now hl hls]⟩
  | some a =>
    by_cases hs : a.state = target
    · exact ⟨_, by rw [sas_already now hl hls hs]⟩
    · exact ⟨_, by rw [sas_ok now hl hls hs]⟩

theorem sas_ret_not_ok_unchanged {st : Store} {k : String} {target : AGENT_STATE} {now : Nat}
    {r : Response} (h : (set_agent_state st k target now).2 = OpResult.ret r)
    (hr : r.resp_type ≠ RESPONSE_TYPE.OK) :
    (set_agent_state st k target now).1 = st := by
  by_cases hl : st.locks (lockName k)
  · rw [sas_contended target now hl]
  · rw [Bool.not_eq_true] at hl
    match hls : alookup st.agents k with
    | none => rw [sas_missing target now hl hls]
    | some a =>
      by_cases hs : a.state = target
      · rw [sas_already now hl hls hs]
      · rw [sas_ok now hl hls hs] at h
        simp only [OpResult.ret.injEq] at h
        rw [← h] at hr
        exact absurd rfl hr

theorem sas_raised_unchanged {st : Store} {k : String} {target : AGENT_STATE} {now : Nat}
    (h : (set_agent_state st k target now).2 = OpResult.raisedLockError) :
    (set_agent_state st k target now).1 = st := by
  by_cases hl : st.locks (lockName k)
  · rw [sas_contended target now hl]
  · rw [Bool.not_eq_true] at hl
    rcases sas_not_raised target now hl with ⟨r, hret⟩
    rw [hret] at h
    exact OpResult.noConfusion h

theorem sas_contacts_eq (st : Store) (k : String) (target : AGENT_STATE) (now : Nat) :
    (set_agent_state st k target now).1.contacts = st.contacts := by
  by_cases hl : st.locks (lockName k)
  · rw [sas_contended target now hl]
  · rw [Bool.not_eq_true] at hl
    match hls : alookup st.agents k with
    | none => rw [sas_missing target now hl hls]
    | some a =>
      by_cases hs : a.state = target
      · rw [sas_already now hl hls hs]
      · rw [sas_ok now hl hls hs]
        exact sas_apply_contacts k target now a.skills st

theorem sas_queue_eq (st : Store) (k : String) (target : AGENT_STATE) (now : Nat) :
    (set_agent_state st k target now).1.queue = st.queue := by
  by_cases hl : st.locks (lockName k)
  · rw [sas_contended target now hl]
  · rw [Bool.not_eq_true] at hl
    match hls : alookup st.agents k with
    | none => rw [sas_missing target now hl hls]
    | some a =>
      by_cases hs : a.state = target
      · rw [sas_already now hl hls hs]
      · rw [sas_ok now hl hls hs]
        exact sas_apply_queue k target now a.skills st

theorem sas_locks_eq (st : Store) (k : String) (target : AGENT_STATE) (now : Nat) :
    (set_agent_state st k target now).1.locks = st.locks := by
  by_cases hl : st.locks (lockName k)
  · rw [sas_contended target now hl]
  · rw [Bool.not_eq_true] at hl
    match hls : alookup st.agents k with
    | none => rw [sas_missing target now hl hls]
    | some a =>
      by_cases hs : a.state = target
      · rw [sas_already now hl hls hs]
      · rw [sas_ok now hl hls hs]
        exact sas_apply_locks k target now a.skills st

/-! ### `tryClaim` lemmas -/

theorem tryClaim_cons_raised {st : Store} {k : String} (now : Nat) (rest : List String)
    (h : (set_agent_state st k AGENT_STATE.UNAVAILABLE now).2 = OpResult.raisedLockError) :
    tryClaim now st (k :: rest) =
      ((set_agent_state st k AGENT_STATE.UNAVAILABLE now).1, ClaimOutcome.raised) := by
  have hp : set_agent_state st k AGENT_STATE.UNAVAILABLE now =
      ((set_agent_state st k AGENT_STATE.UNAVAILABLE now).1, OpResult.raisedLockError) := by
    rw [← h]
  simp only [tryClaim]
  rw [hp]

theorem tryClaim_cons_ok {st : Store} {k : String} {r : Response} (now : Nat)
    (rest : List String)
    (h : (set_agent_state st k AGENT_STATE.UNAVAILABLE now).2 = OpResult.ret r)
    (hOK : r.resp_type = RESPONSE_TYPE.OK) :
    tryClaim now st (k :: rest) =
      ((set_agent_state st k AGENT_STATE.UNAVAILABLE now).1, ClaimOutcome.winner k) := by
  have hp : set_agent_state st k AGENT_STATE.UNAVAILABLE now =
      ((set_agent_state st k AGENT_STATE.UNAVAILABLE now).1, OpResult.ret r) := by
    rw [← h]
  simp only [tryClaim]
  rw [hp]
  simp [hOK]

theorem tryClaim_cons_fail {st : Store} {k : String} {r : Response} (now : Nat)
    (rest : List String)
    (h : (set_agent_state st k AGENT_STATE.UNAVAILABLE now).2 = OpResult.ret r)
    (hnOK : ¬ r.resp_type = RESPONSE_TYPE.OK) :
    tryClaim now st (k :: rest) =
      tryClaim now (set_agent_state st k AGENT_STATE.UNAVAILABLE now).1 rest := by
  have hp : set_agent_state st k AGENT_STATE.UNAVAILABLE now =
      ((set_agent_state st k AGENT_STATE.UNAVAILABLE now).1, OpResult.ret r) := by
    rw [← h]
  simp only [tryClaim]
  rw [hp]
  simp [hnOK]

theorem tryClaim_field {α : Type} (f : Store → α)
    (hf : ∀ (st : Store) (k : String) (now : Nat),
      f (set_agent_state st k AGENT_STATE.UNAVAILABLE now).1 = f st)
    (now : Nat) : ∀ (cs : List String) (st : Store), f (tryClaim now st cs).1 = f st := by
  intro cs
  induction cs with
  | nil => intro st; rfl
  | cons k rest ih =>
    intro st
    match hr : (set_agent_state st k AGENT_STATE.UNAVAILABLE now).2 with
    | OpResult.raisedLockError =>
      rw [tryClaim_cons_raised now rest hr]
      exact hf st k now
    | OpResult.ret r =>
      by_cases hOK : r.resp_type = RESPONSE_TYPE.OK
      · rw [tryClaim_cons_ok now rest hr hOK]
        exact hf st k now
      · rw [tryClaim_cons_fail now rest hr hOK]
        rw [ih]
        exact hf st k now

theorem tryClaim_contacts (now : Nat) :
    ∀ (cs : List String) (st : Store), (tryClaim now st cs).1.contacts = st.contacts :=
  tryClaim_field (fun s => s.contacts) (fun st k now => sas_contacts_eq st k _ now) now

theorem tryClaim_queue (now : Nat) :
    ∀ (cs : List String) (st : Store), (tryClaim now st cs).1.queue = st.queue :=
  tryClaim_field (fun s => s.queue) (fun st k now => sas_queue_eq st k _ now) now

theorem tryClaim_locks (now : Nat) :
    ∀ (cs : List String) (st : Store), (tryClaim now st cs).1.locks = st.locks :=
  tryClaim_field (fun s => s.locks) (fun st k now => sas_locks_eq st k _ now) now

/-- When the claim loop runs out of candidates, the failed claims have left
the store untouched. -/
theorem tryClaim_exhausted_unchanged (now : Nat) :
    ∀ (cs : List String) (st : Store), (tryClaim now st cs).2 = ClaimOutcome.exhausted →
    (tryClaim now st cs).1 = st := by
  intro cs
  induction cs with
  | nil => intro st _; rfl
  | cons k rest ih =>
    intro st hex
    match hr : (set_agent_state st k AGENT_STATE.UNAVAILABLE now).2 with
    | OpResult.raisedLockError =>
      rw [tryClaim_cons_raised now rest hr] at hex
      exact ClaimOutcome.noConfusion hex
    | OpResult.ret r =>
      by_cases hOK : r.resp_type = RESPONSE_TYPE.OK
      · rw [tryClaim_cons_ok now rest hr hOK] at hex
        exact ClaimOutcome.noConfusion hex
      · rw [tryClaim_cons_fail now rest hr hOK] at hex ⊢
        rw [ih _ hex, sas_ret_not_ok_unchanged hr hOK]

/-! ### Generic fold frame lemmas -/

theorem foldl_contacts_eq {β : Type} (g : Store → β → Store)
    (h : ∀ st x, (g st x).contacts = st.contacts) :
    ∀ (l : List β) (st : Store), (l.foldl g st).contacts = st.contacts := by
  intro l
  induction l with
  | nil => intro st; rfl
  | cons x t ih =>
    intro st
    rw [List.foldl_cons, ih, h]

theorem foldl_queue_eq {β : Type} (g : Store → β → Store)
    (h : ∀ st x, (g st x).queue = st.queue) :
    ∀ (l : List β) (st : Store), (l.foldl g st).queue = st.queue := by
  intro l
  induction l with
  | nil => intro st; rfl
  | cons x t ih =>
    intro st
    rw [List.foldl_cons, ih, h]

theorem foldl_agents_eq {β : Type} (g : Store → β → Store)
    (h : ∀ st x, (g st x).agents = st.agents) :
    ∀ (l : List β) (st : Store), (l.foldl g st).agents = st.agents := by
  intro l
  induction l with
  | nil => intro st; rfl
  | cons x t ih =>
    intro st
    rw [List.foldl_cons, ih, h]

theorem foldl_locks_eq {β : Type} (g : Store → β → Store)
    (h : ∀ st x, (g st x).locks = st.locks) :
    ∀ (l : List β) (st : Store), (l.foldl g st).locks = st.locks := by
  intro l
  induction l with
  | nil => intro st; rfl
  | cons x t ih =>
    intro st
    rw [List.foldl_cons, ih, h]

/-- The availability indexes after `delete_agent`'s per-skill `ZREM` loop. -/
theorem remAvailFold_avail (k : String) :
    ∀ (l : List String) (st : Store) (s : String),
    ((l.foldl (fun acc sk => updAvail acc sk (fun z => aerase z k)) st)).avail s =
      if s ∈ l then aerase (st.avail s) k else st.avail s := by
  intro l
  induction l with
  | nil => intro st s; simp
  | cons s0 t ih =>
    intro st s
    rw [List.foldl_cons, ih]
    have hX : ∀ s', (updAvail st s0 (fun z => aerase z k)).avail s' =
        if s' = s0 then aerase (st.avail s') k else st.avail s' := fun s' => rfl
    by_cases hs0 : s = s0
    · subst hs0
      by_cases hs : s ∈ t
      · simp [hs, hX, aerase_aerase]
      · simp [hs, hX]
    · by_cases hs : s ∈ t
      · simp [hs, hs0, hX]
      · simp [hs, hs0, hX]

/-! ### Per-operation frame lemmas on the contact documents -/

theorem create_agent_contacts (st : Store) (k f l : String) (skills : List String) :
    (create_agent st k f l skills).1.contacts = st.contacts := by
  by_cases hl : st.locks (lockName k)
  · simp [create_agent, hl]
  · rw [Bool.not_eq_true] at hl
    match hls : alookup st.agents k with
    | none => simp [create_agent, hl, hls]
    | some a => simp [create_agent, hl, hls]

theorem delete_agent_contacts (st : Store) (k : String) :
    (delete_agent st k).1.contacts = st.contacts := by
  by_cases hl : st.locks (lockName k)
  · simp [delete_agent, hl]
  · rw [Bool.not_eq_true] at hl
    match hls : alookup st.agents k with
    | none => simp [delete_agent, hl, hls]
    | some a =>
      simp only [delete_agent, hl, Bool.false_eq_true, if_false, hls]
      exact foldl_contacts_eq (fun acc sk => updAvail acc sk (fun z => aerase z k))
        (fun st x => rfl) a.skills st

theorem change_agent_info_contacts (st : Store) (k f l : String) :
    (change_agent_info st k f l).1.contacts = st.contacts := by
  match hls : alookup st.agents k with
  | none => simp [change_agent_info, hls]
  | some a => simp [change_agent_info, hls]

theorem add_agent_skill_contacts (st : Store) (k skill : String) (now : Nat) :
    (add_agent_skill st k skill now).1.contacts = st.contacts := by
  by_cases hl : st.locks (lockName k)
  · simp [add_agent_skill, hl]
  · rw [Bool.not_eq_true] at hl
    match hls : alookup st.agents k with
    | none => simp [add_agent_skill, hl, hls]
    | some a =>
      by_cases hs : a.state = AGENT_STATE.AVAILABLE
      · simp [add_agent_skill, hl, hls, hs, updAvail]
      · simp [add_agent_skill, hl, hls, hs]

theorem delete_agent_skill_contacts (st : Store) (k skill : String) :
    (delete_agent_skill st k skill).1.contacts = st.contacts := by
  by_cases hl : st.locks (lockName k)
  · simp [delete_agent_skill, hl]
  · rw [Bool.not_eq_true] at hl
    match hls : alookup st.agents k with
    | none => simp [delete_agent_skill, hl, hls]
    | some a =>
      by_cases hs : skill ∈ a.skills
      · simp [delete_agent_skill, hl, hls, hs, updAvail]
      · simp [delete_agent_skill, hl, hls, hs]

theorem das_locks_eq (st : Store) (k skill : String) :
    (delete_agent_skill st k skill).1.locks = st.locks := by
  by_cases hl : st.locks (lockName k)
  · simp [delete_agent_skill, hl]
  · rw [Bool.not_eq_true] at hl
    match hls : alookup st.agents k with
    | none => simp [delete_agent_skill, hl, hls]
    | some a =>
      by_cases hs : skill ∈ a.skills
      · simp [delete_agent_skill, hl, hls, hs, updAvail]
      · simp [delete_agent_skill, hl, hls, hs]

/-- A lock-free `delete_agent_skill` call always returns a `Response`. -/
theorem das_not_raised {st : Store} {k : String} (skill : String)
    (hl : st.locks (lockName k) = false) :
    ∃ r, (delete_agent_skill st k skill).2 = OpResult.ret r := by
  match hls : alookup st.agents k with
  | none =>
    refine ⟨⟨RESPONSE_TYPE.ERR, some ("delete_agent_skill - " ++ k ++ " does not exist")⟩, ?_⟩
    simp [delete_agent_skill, hl, hls]
  | some a =>
    by_cases hs : skill ∈ a.skills
    · refine ⟨⟨RESPONSE_TYPE.OK, some k⟩, ?_⟩
      simp [delete_agent_skill, hl, hls, hs]
    · refine ⟨⟨RESPONSE_TYPE.ERR,
        some ("delete_agent_skill - agent does not have skill " ++ skill)⟩, ?_⟩
      simp [delete_agent_skill, hl, hls, hs]

theorem scanDeleteSkill_cons_raised {st : Store} {k skill : String} (rest : List String)
    (h : (delete_agent_skill st k skill).2 = OpResult.raisedLockError) :
    scanDeleteSkill skill st (k :: rest) = ((delete_agent_skill st k skill).1, true) := by
  have hp : delete_agent_skill st k skill =
      ((delete_agent_skill st k skill).1, OpResult.raisedLockError) := by
    rw [← h]
  simp only [scanDeleteSkill]
  rw [hp]

theorem scanDeleteSkill_cons_ret {st : Store} {k skill : String} {r : Response}
    (rest : List String) (h : (delete_agent_skill st k skill).2 = OpResult.ret r) :
    scanDeleteSkill skill st (k :: rest) =
      scanDeleteSkill skill (delete_agent_skill st k skill).1 rest := by
  have hp : delete_agent_skill st k skill =
      ((delete_agent_skill st k skill).1, OpResult.ret r) := by
    rw [← h]
  simp only [scanDeleteSkill]
  rw [hp]

theorem scanDeleteSkill_contacts (skill : String) :
    ∀ (ks : List String) (st : Store),
    (scanDeleteSkill skill st ks).1.contacts = st.contacts := by
  intro ks
  induction ks with
  | nil => intro st; rfl
  | cons k rest ih =>
    intro st
    match hr : (delete_agent_skill st k skill).2 with
    | OpResult.raisedLockError =>
      rw [scanDeleteSkill_cons_raised rest hr]
      exact delete_agent_skill_contacts st k skill
    | OpResult.ret r =>
      rw [scanDeleteSkill_cons_ret rest hr, ih]
      exact delete_agent_skill_contacts st k skill

theorem scanSetState_cons_raised {st : Store} {k : String} (target : AGENT_STATE) (now : Nat)
    (rest : List String) (h : (set_agent_state st k target now).2 = OpResult.raisedLockError) :
    scanSetState target now st (k :: rest) = ((set_agent_state st k target now).1, true) := by
  have hp : set_agent_state st k target now =
      ((set_agent_state st k target now).1, OpResult.raisedLockError) := by
    rw [← h]
  simp only [scanSetState]
  rw [hp]

theorem scanSetState_cons_ret {st : Store} {k : String} {r : Response} (target : AGENT_STATE)
    (now : Nat) (rest : List String) (h : (set_agent_state st k target now).2 = OpResult.ret r) :
    scanSetState target now st (k :: rest) =
      scanSetState target now (set_agent_state st k target now).1 rest := by
  have hp : set_agent_state st k target now =
      ((set_agent_state st k target now).1, OpResult.ret r) := by
    rw [← h]
  simp only [scanSetState]
  rw [hp]

theorem scanSetState_contacts (target : AGENT_STATE) (now : Nat) :
    ∀ (ks : List String) (st : Store),
    (scanSetState target now st ks).1.contacts = st.contacts := by
  intro ks
  induction ks with
  | nil => intro st; rfl
  | cons k rest ih =>
    intro st
    match hr : (set_agent_state st k target now).2 with
    | OpResult.raisedLockError =>
      rw [scanSetState_cons_raised target now rest hr]
      exact sas_contacts_eq st k target now
    | OpResult.ret r =>
      rw [scanSetState_cons_ret target now rest hr, ih]
      exact sas_contacts_eq st k target now

/-- Both exit arms of `delete_skill` carry the scan's final store. -/
theorem delete_skill_store (st : Store) (skill : String) :
    (delete_skill st skill).1 =
      (scanDeleteSkill skill
        { st with avail := fun s => if s = skill then [] else st.avail s }
        (st.agents.map Prod.fst)).1 := by
  match hscan : scanDeleteSkill skill
      { st with avail := fun s => if s = skill then [] else st.avail s }
      (st.agents.map Prod.fst) with
  | (st2, b) =>
    cases b
    · simp [delete_skill, hscan]
    · simp [delete_skill, hscan]

theorem delete_skill_contacts (st : Store) (skill : String) :
    (delete_skill st skill).1.contacts = st.contacts := by
  rw [delete_skill_store]
  exact scanDeleteSkill_contacts skill _ _

/-- Both exit arms of `set_acd_state` carry the scan's final store. -/
theorem set_acd_state_store (st : Store) (acd : ACD_STATE) (now : Nat) :
    (set_acd_state st acd now).1 =
      (scanSetState (match acd with
        | ACD_STATE.OPEN => AGENT_STATE.AVAILABLE
        | ACD_STATE.CLOSED => AGENT_STATE.UNAVAILABLE) now st (st.agents.map Prod.fst)).1 := by
  cases acd
  · match hscan : scanSetState AGENT_STATE.AVAILABLE now st (st.agents.map Prod.fst) with
    | (st2, b) =>
      cases b
      · simp [set_acd_state, hscan]
      · simp [set_acd_state, hscan]
  · match hscan : scanSetState AGENT_STATE.UNAVAILABLE now st (st.agents.map Prod.fst) with
    | (st2, b) =>
      cases b
      · simp [set_acd_state, hscan]
      · simp [set_acd_state, hscan]

theorem set_acd_state_contacts (st : Store) (acd : ACD_STATE) (now : Nat) :
    (set_acd_state st acd now).1.contacts = st.contacts := by
  rw [set_acd_state_store]
  cases acd
  · exact scanSetState_contacts AGENT_STATE.AVAILABLE now _ _
  · exact scanSetState_contacts AGENT_STATE.UNAVAILABLE now _ _

/-! ### Claim C10: `delete_agent` effect and frame -/

/-- C10: `delete_agent` on an existing agent (lock free) removes the agent from
`avail:{s}` for every skill `s` in its skills list and deletes the agent's
JSON record, but modifies nothing else: other agents, the availability
indexes of other skills, the queue and every contact record are unchanged, so
a contact whose `agent` field names the deleted agent retains that stale
reference. -/
theorem C10_delete_agent_frame (st : Store) (k : String) (a : Agent)
    (hl : st.locks (lockName k) = false) (ha : alookup st.agents k = some a) :
    (delete_agent st k).2 = OpResult.ret ⟨RESPONSE_TYPE.OK, some k⟩ ∧
    alookup (delete_agent st k).1.agents k = none ∧
    (∀ k', k' ≠ k → alookup (delete_agent st k).1.agents k' = alookup st.agents k') ∧
    (∀ s, s ∈ a.skills →
      (delete_agent st k).1.avail s = aerase (st.avail s) k ∧
      k ∉ zmembers ((delete_agent st k).1.avail s)) ∧
    (∀ s, s ∉ a.skills → (delete_agent st k).1.avail s = st.avail s) ∧
    (delete_agent st k).1.queue = st.queue ∧
    (delete_agent st k).1.contacts = st.contacts ∧
    (delete_agent st k).1.locks = st.locks ∧
    (∀ ck c, alookup st.contacts ck = some c →
      alookup (delete_agent st k).1.contacts ck = some c) := by
  have hda : delete_agent st k =
      ({ (a.skills.foldl (fun acc sk => updAvail acc sk (fun z => aerase z k)) st) with
          agents := aerase
            (a.skills.foldl (fun acc sk => updAvail acc sk (fun z => aerase z k)) st).agents k },
       OpResult.ret ⟨RESPONSE_TYPE.OK, some k⟩) := by
    simp [delete_agent, hl, ha]
  have hAgentsFold :
      (a.skills.foldl (fun acc sk => updAvail acc sk (fun z => aerase z k)) st).agents =
        st.agents :=
    foldl_agents_eq (fun acc sk => updAvail acc sk (fun z => aerase z k))
      (fun st x => rfl) a.skills st
  have hQueueFold :
      (a.skills.foldl (fun acc sk => updAvail acc sk (fun z => aerase z k)) st).queue =
        st.queue :=
    foldl_queue_eq (fun acc sk => updAvail acc sk (fun z => aerase z k))
      (fun st x => rfl) a.skills st
  have hContactsFold :
      (a.skills.foldl (fun acc sk => updAvail acc sk (fun z => aerase z k)) st).contacts =
        st.contacts :=
    foldl_contacts_eq (fun acc sk => updAvail acc sk (fun z => aerase z k))
      (fun st x => rfl) a.skills st
  have hLocksFold :
      (a.skills.foldl (fun acc sk => updAvail acc sk (fun z => aerase z k)) st).locks =
        st.locks :=
    foldl_locks_eq (fun acc sk => updAvail acc sk (fun z => aerase z k))
      (fun st x => rfl) a.skills st
  refine ⟨by rw [hda], ?_, ?_, ?_, ?_, ?_, ?_, ?_, ?_⟩
  · rw [hda]
    simp only
    rw [hAgentsFold]
    exact alookup_aerase_self st.agents k
  · intro k' hk'
    rw [hda]
    simp only
    rw [hAgentsFold]
    exact alookup_aerase_ne st.agents hk'
  · intro s hs
    rw [hda]
    simp only
    rw [remAvailFold_avail k a.skills st s, if_pos hs]
    exact ⟨rfl, fun hmem => ((mem_zmembers_aerase.mp hmem).2) rfl⟩
  · intro s hs
    rw [hda]
    simp only
    rw [remAvailFold_avail k a.skills st s, if_neg hs]
  · rw [hda]
    simp only
    rw [hQueueFold]
  · rw [hda]
    simp only
    rw [hContactsFold]
  · rw [hda]
    simp only
    rw [hLocksFold]
  · intro ck c hc
    rw [hda]
    simp only
    rw [hContactsFold]
    exact hc

/-- An agent with two skills made `AVAILABLE`, plus a contact assigned to it:
the concrete store used to instantiate the `delete_agent` frame theorem. -/
def w10Store : Store :=
  let s1 := (create_agent emptyStore "agent:1" "Ann" "Lee" ["s1", "s2"]).1
  let s2 := (set_agent_state s1 "agent:1" AGENT_STATE.AVAILABLE 5).1
  let s3 := (create_contact s2 "contact:1" ["s1"] 10).1
  (dispatchIteration s3 20).1

theorem C10_delete_agent_frame_witness :
    (w10Store.locks (lockName "agent:1") = false ∧
      alookup w10Store.agents "agent:1" =
        some ⟨"agent:1", "Ann", "Lee", ["s1", "s2"], AGENT_STATE.UNAVAILABLE⟩) ∧
    ((delete_agent w10Store "agent:1").2 = OpResult.ret ⟨RESPONSE_TYPE.OK, some "agent:1"⟩ ∧
    alookup (delete_agent w10Store "agent:1").1.agents "agent:1" = none ∧
    (∀ k', k' ≠ "agent:1" →
      alookup (delete_agent w10Store "agent:1").1.agents k' = alookup w10Store.agents k') ∧
    (∀ s, s ∈ (["s1", "s2"] : List String) →
      (delete_agent w10Store "agent:1").1.avail s = aerase (w10Store.avail s) "agent:1" ∧
      "agent:1" ∉ zmembers ((delete_agent w10Store "agent:1").1.avail s)) ∧
    (∀ s, s ∉ (["s1", "s2"] : List String) →
      (delete_agent w10Store "agent:1").1.avail s = w10Store.avail s) ∧
    (delete_agent w10Store "agent:1").1.queue = w10Store.queue ∧
    (delete_agent w10Store "agent:1").1.contacts = w10Store.contacts ∧
    (delete_agent w10Store "agent:1").1.locks = w10Store.locks ∧
    (∀ ck c, alookup w10Store.contacts ck = some c →
      alookup (delete_agent w10Store "agent:1").1.contacts ck = some c)) :=
  ⟨⟨by decide, by decide⟩,
    C10_delete_agent_frame w10Store "agent:1"
      ⟨"agent:1", "Ann", "Lee", ["s1", "s2"], AGENT_STATE.UNAVAILABLE⟩
      (by decide) (by decide)⟩

/-! ### Claim C4: locking discipline of the agent-mutating operations -/

/-- CORRECTED C4: `create_agent`, `delete_agent`, `set_agent_state`,
`add_agent_skill` and `delete_agent_skill` attempt the per-agent advisory
lock, and under sustained contention (the lock held by another actor for the
whole call) the acquire times out; the `finally` block then calls
`lock.release()` on a lock it does not own (`lock.locked()` tests mere key
existence), so the operation raises `LockError` out of the call with no side
effects — it does *not* return a `LOCKED` response.  `change_agent_info`,
however, performs no locking at all: it never returns `LOCKED`, and on an
existing agent it succeeds and rewrites `fname`/`lname` regardless of the
lock state. -/
theorem C4_locking_discipline :
    (∀ (st : Store) (k f l : String) (skills : List String),
      st.locks (lockName k) = true →
      create_agent st k f l skills = (st, OpResult.raisedLockError)) ∧
    (∀ (st : Store) (k : String), st.locks (lockName k) = true →
      delete_agent st k = (st, OpResult.raisedLockError)) ∧
    (∀ (st : Store) (k : String) (target : AGENT_STATE) (now : Nat),
      st.locks (lockName k) = true →
      set_agent_state st k target now = (st, OpResult.raisedLockError)) ∧
    (∀ (st : Store) (k s : String) (now : Nat), st.locks (lockName k) = true →
      add_agent_skill st k s now = (st, OpResult.raisedLockError)) ∧
    (∀ (st : Store) (k s : String), st.locks (lockName k) = true →
      delete_agent_skill st k s = (st, OpResult.raisedLockError)) ∧
    (∀ (st : Store) (k f l : String),
      (change_agent_info st k f l).2.resp_type ≠ RESPONSE_TYPE.LOCKED) ∧
    (∀ (st : Store) (k f l : String) (a : Agent), alookup st.agents k = some a →
      (change_agent_info st k f l).2.resp_type = RESPONSE_TYPE.OK ∧
      alookup (change_agent_info st k f l).1.agents k =
        some { a with fname := f, lname := l }) := by
  refine ⟨?_, ?_, ?_, ?_, ?_, ?_, ?_⟩
  · intro st k f l skills h
    simp [create_agent, h]
  · intro st k h
    simp [delete_agent, h]
  · intro st k target now h
    simp [set_agent_state, h]
  · intro st k s now h
    simp [add_agent_skill, h]
  · intro st k s h
    simp [delete_agent_skill, h]
  · intro st k f l
    match hls : alookup st.agents k with
    | none => simp [change_agent_info, hls]
    | some a => simp [change_agent_info, hls]
  · intro st k f l a ha
    refine ⟨by simp [change_agent_info, ha], ?_⟩
    simp only [change_agent_info, ha]
    rw [alookup_aupdate_self, ha]
    rfl

/-- A store whose only agent's advisory lock is held by another actor. -/
def c4Store : Store :=
  { contacts := [],
    agents := [("agent:1", ⟨"agent:1", "Ann", "Lee", ["s1"], AGENT_STATE.UNAVAILABLE⟩)],
    queue := [],
    avail := fun _ => [],
    locks := fun n => n == lockName "agent:1" }

/-- C4 counterexample: with the per-agent lock held by another actor,
`change_agent_info` does *not* return `LOCKED` and does mutate the store,
and a contended locking operation such as `create_agent` raises `LockError`
rather than returning a `LOCKED` response — so the claim that every
agent-mutating operation takes the lock and answers `LOCKED` without side
effects on contention is false on the code in both respects. -/
theorem C4_counterexample :
    c4Store.locks (lockName "agent:1") = true ∧
    (change_agent_info c4Store "agent:1" "Bea" "Cruz").2.resp_type = RESPONSE_TYPE.OK ∧
    alookup (change_agent_info c4Store "agent:1" "Bea" "Cruz").1.agents "agent:1" =
      some ⟨"agent:1", "Bea", "Cruz", ["s1"], AGENT_STATE.UNAVAILABLE⟩ ∧
    (create_agent c4Store "agent:1" "x" "y" []).2 = OpResult.raisedLockError ∧
    ∀ r : Response, (create_agent c4Store "agent:1" "x" "y" []).2 ≠ OpResult.ret r := by
  refine ⟨by decide, by decide, by decide, by decide, ?_⟩
  intro r h
  rw [show (create_agent c4Store "agent:1" "x" "y" []).2 = OpResult.raisedLockError
    from by decide] at h
  exact OpResult.noConfusion h

theorem C4_locking_discipline_witness :
    (c4Store.locks (lockName "agent:1") = true ∧
      alookup c4Store.agents "agent:1" =
        some ⟨"agent:1", "Ann", "Lee", ["s1"], AGENT_STATE.UNAVAILABLE⟩) ∧
    create_agent c4Store "agent:1" "x" "y" [] = (c4Store, OpResult.raisedLockError) ∧
    delete_agent c4Store "agent:1" = (c4Store, OpResult.raisedLockError) ∧
    set_agent_state c4Store "agent:1" AGENT_STATE.AVAILABLE 3 =
      (c4Store, OpResult.raisedLockError) ∧
    add_agent_skill c4Store "agent:1" "s2" 3 = (c4Store, OpResult.raisedLockError) ∧
    delete_agent_skill c4Store "agent:1" "s1" = (c4Store, OpResult.raisedLockError) ∧
    (change_agent_info c4Store "agent:1" "x" "y").2.resp_type ≠ RESPONSE_TYPE.LOCKED ∧
    (change_agent_info c4Store "agent:1" "x" "y").2.resp_type = RESPONSE_TYPE.OK ∧
    alookup (change_agent_info c4Store "agent:1" "x" "y").1.agents "agent:1" =
      some ⟨"agent:1", "x", "y", ["s1"], AGENT_STATE.UNAVAILABLE⟩ :=
  ⟨⟨by decide, by decide⟩,
    C4_locking_discipline.1 c4Store "agent:1" "x" "y" [] (by decide),
    C4_locking_discipline.2.1 c4Store "agent:1" (by decide),
    C4_locking_discipline.2.2.1 c4Store "agent:1" AGENT_STATE.AVAILABLE 3 (by decide),
    C4_locking_discipline.2.2.2.1 c4Store "agent:1" "s2" 3 (by decide),
    C4_locking_discipline.2.2.2.2.1 c4Store "agent:1" "s1" (by decide),
    C4_locking_discipline.2.2.2.2.2.1 c4Store "agent:1" "x" "y",
    (C4_locking_discipline.2.2.2.2.2.2 c4Store "agent:1" "x" "y"
      ⟨"agent:1", "Ann", "Lee", ["s1"], AGENT_STATE.UNAVAILABLE⟩ (by decide)).1,
    (C4_locking_discipline.2.2.2.2.2.2 c4Store "agent:1" "x" "y"
      ⟨"agent:1", "Ann", "Lee", ["s1"], AGENT_STATE.UNAVAILABLE⟩ (by decide)).2⟩

/-! ### Claim C8: no-op state changes and idempotence -/

/-- CORRECTED C8: on an existing agent already in the target state,
`set_agent_state` returns `ERR` with an explanatory message and leaves the
store unchanged.  Consequently, for an agent whose skills list is non-empty,
two consecutive calls with the same target perform exactly one real
transition — the first returns `OK` and flips the stored state, the second
returns `ERR`-already and changes nothing.  (For an agent with an *empty*
skills list the state write inside the per-skill loop never runs, so no
transition occurs and repeated calls keep returning `OK`; see the
counterexample.) -/
theorem C8_set_agent_state_idempotent :
    (∀ (st : Store) (k : String) (a : Agent) (target : AGENT_STATE) (now : Nat),
      st.locks (lockName k) = false → alookup st.agents k = some a →
      a.state = target →
      set_agent_state st k target now =
        (st, OpResult.ret
          ⟨RESPONSE_TYPE.ERR, some ("set_agent_state - " ++ k ++ " already in state")⟩)) ∧
    (∀ (st : Store) (k : String) (a : Agent) (target : AGENT_STATE) (now now' : Nat),
      st.locks (lockName k) = false → alookup st.agents k = some a →
      a.state ≠ target → a.skills ≠ [] →
      (set_agent_state st k target now).2 = OpResult.ret ⟨RESPONSE_TYPE.OK, some k⟩ ∧
      alookup (set_agent_state st k target now).1.agents k = some { a with state := target } ∧
      set_agent_state (set_agent_state st k target now).1 k target now' =
        ((set_agent_state st k target now).1,
         OpResult.ret
           ⟨RESPONSE_TYPE.ERR, some ("set_agent_state - " ++ k ++ " already in state")⟩)) := by
  constructor
  · intro st k a target now hl ha hs
    exact sas_already now hl ha hs
  · intro st k a target now now' hl ha hs hsk
    have h1 : set_agent_state st k target now =
        (applySteps st (sasSteps k target now a.skills),
         OpResult.ret ⟨RESPONSE_TYPE.OK, some k⟩) :=
      sas_ok now hl ha hs
    have hagents : (set_agent_state st k target now).1.agents =
        aupdate st.agents k (fun a0 => { a0 with state := target }) := by
      rw [h1]
      exact sas_apply_agents k target now a.skills st hsk
    have hlook : alookup (set_agent_state st k target now).1.agents k =
        some { a with state := target } := by
      rw [hagents, alookup_aupdate_self, ha]
      rfl
    refine ⟨by rw [h1], hlook, ?_⟩
    have hl' : (set_agent_state st k target now).1.locks (lockName k) = false := by
      rw [sas_locks_eq]
      exact hl
    exact sas_already now' hl' hlook rfl

/-- An agent created with an empty skills list. -/
def c8Store : Store := (create_agent emptyStore "agent:e" "Ann" "Lee" []).1

/-- C8 counterexample: on an agent whose skills list is empty, the state
write never executes (it sits inside the per-skill loop), so
`set_agent_state` returns `OK` without performing a transition and a second
identical call *also* returns `OK` — not the claimed `ERR`-already after
exactly one transition. -/
theorem C8_counterexample :
    alookup c8Store.agents "agent:e" =
      some ⟨"agent:e", "Ann", "Lee", [], AGENT_STATE.UNAVAILABLE⟩ ∧
    (set_agent_state c8Store "agent:e" AGENT_STATE.AVAILABLE 0).2 =
      OpResult.ret ⟨RESPONSE_TYPE.OK, some "agent:e"⟩ ∧
    alookup (set_agent_state c8Store "agent:e" AGENT_STATE.AVAILABLE 0).1.agents "agent:e" =
      some ⟨"agent:e", "Ann", "Lee", [], AGENT_STATE.UNAVAILABLE⟩ ∧
    (set_agent_state (set_agent_state c8Store "agent:e" AGENT_STATE.AVAILABLE 0).1
      "agent:e" AGENT_STATE.AVAILABLE 0).2 =
      OpResult.ret ⟨RESPONSE_TYPE.OK, some "agent:e"⟩ := by
  refine ⟨by decide, by decide, by decide, by decide⟩

/-- An agent with one skill, freshly created (`UNAVAILABLE`). -/
def w8Store : Store := (create_agent emptyStore "agent:1" "Ann" "Lee" ["s1"]).1

theorem C8_set_agent_state_idempotent_witness :
    (w8Store.locks (lockName "agent:1") = false ∧
      alookup w8Store.agents "agent:1" =
        some ⟨"agent:1", "Ann", "Lee", ["s1"], AGENT_STATE.UNAVAILABLE⟩) ∧
    (set_agent_state w8Store "agent:1" AGENT_STATE.UNAVAILABLE 3 =
      (w8Store, OpResult.ret
        ⟨RESPONSE_TYPE.ERR, some ("set_agent_state - " ++ "agent:1" ++ " already in state")⟩)) ∧
    ((set_agent_state w8Store "agent:1" AGENT_STATE.AVAILABLE 3).2 =
        OpResult.ret ⟨RESPONSE_TYPE.OK, some "agent:1"⟩ ∧
      alookup (set_agent_state w8Store "agent:1" AGENT_STATE.AVAILABLE 3).1.agents "agent:1" =
        some ⟨"agent:1", "Ann", "Lee", ["s1"], AGENT_STATE.AVAILABLE⟩ ∧
      set_agent_state (set_agent_state w8Store "agent:1" AGENT_STATE.AVAILABLE 3).1
          "agent:1" AGENT_STATE.AVAILABLE 4 =
        ((set_agent_state w8Store "agent:1" AGENT_STATE.AVAILABLE 3).1, OpResult.ret
         ⟨RESPONSE_TYPE.ERR, some ("set_agent_state - " ++ "agent:1" ++ " already in state")⟩)) :=
  ⟨⟨by decide, by decide⟩,
    C8_set_agent_state_idempotent.1 w8Store "agent:1"
      ⟨"agent:1", "Ann", "Lee", ["s1"], AGENT_STATE.UNAVAILABLE⟩ AGENT_STATE.UNAVAILABLE 3
      (by decide) (by decide) (by decide),
    C8_set_agent_state_idempotent.2 w8Store "agent:1"
      ⟨"agent:1", "Ann", "Lee", ["s1"], AGENT_STATE.UNAVAILABLE⟩ AGENT_STATE.AVAILABLE 3 4
      (by decide) (by decide) (by decide) (by decide)⟩

/-! ### Claim C7: requeue decelerator -/

/-- C7: when the dispatcher pops `(contact_key, score)` from the queue, finds
no winning candidate, and the contact's state is not `COMPLETE`, the contact
is `ZADD`ed back onto the queue with score exactly `score + 1000`, and the
contact documents are left unchanged by the iteration. -/
theorem C7_requeue_decelerator (st : Store) (now : Nat) (ck : String) (sc : Nat)
    (q' : List (String × Nat)) (c : Contact) (cands : List (String × Nat))
    (hpop : zpopmin st.queue = some ((ck, sc), q'))
    (hc : alookup st.contacts ck = some c)
    (hz : zinterAll (c.skills.map st.avail) = some cands)
    (hclaim : (tryClaim now { st with queue := q' } (cands.map Prod.fst)).2 =
      ClaimOutcome.exhausted)
    (hstate : c.state ≠ CONTACT_STATE.COMPLETE) :
    dispatchIteration st now =
      ({ st with queue := aset q' ck (sc + 1000) }, DispResult.requeued ck (sc + 1000)) ∧
    (dispatchIteration st now).1.contacts = st.contacts ∧
    alookup (dispatchIteration st now).1.queue ck = some (sc + 1000) := by
  have hpair : tryClaim now { st with queue := q' } (cands.map Prod.fst) =
      ({ st with queue := q' }, ClaimOutcome.exhausted) := by
    have h1 := tryClaim_exhausted_unchanged now (cands.map Prod.fst) { st with queue := q' }
      hclaim
    have := Prod.mk.eta (p := tryClaim now { st with queue := q' } (cands.map Prod.fst))
    rw [← this, h1, hclaim]
  have hmain : dispatchIteration st now =
      ({ st with queue := aset q' ck (sc + 1000) }, DispResult.requeued ck (sc + 1000)) := by
    unfold dispatchIteration
    rw [hpop]
    dsimp only
    rw [hc]
    dsimp only
    rw [hz]
    dsimp only
    rw [hpair]
    dsimp only
    rw [hc]
    dsimp only
    rw [if_neg hstate]
  refine ⟨hmain, ?_, ?_⟩
  · rw [hmain]
  · rw [hmain]
    exact alookup_aset_self q' ck (sc + 1000)

/-- A store holding one queued contact requiring a skill no agent has. -/
def w7Store : Store := (create_contact emptyStore "contact:1" ["s1"] 10).1

theorem C7_requeue_decelerator_witness :
    (zpopmin w7Store.queue = some (("contact:1", 10), []) ∧
      alookup w7Store.contacts "contact:1" = some ⟨["s1"], CONTACT_STATE.QUEUED, none⟩ ∧
      zinterAll ((["s1"] : List String).map w7Store.avail) = some [] ∧
      (tryClaim 20 { w7Store with queue := [] }
        (([] : List (String × Nat)).map Prod.fst)).2 = ClaimOutcome.exhausted ∧
      CONTACT_STATE.QUEUED ≠ CONTACT_STATE.COMPLETE) ∧
    (dispatchIteration w7Store 20 =
      ({ w7Store with queue := aset [] "contact:1" (10 + 1000) },
       DispResult.requeued "contact:1" (10 + 1000)) ∧
    (dispatchIteration w7Store 20).1.contacts = w7Store.contacts ∧
    alookup (dispatchIteration w7Store 20).1.queue "contact:1" = some (10 + 1000)) :=
  ⟨⟨by decide, by decide, by decide, by decide, by decide⟩,
    C7_requeue_decelerator w7Store 20 "contact:1" 10 [] ⟨["s1"], CONTACT_STATE.QUEUED, none⟩ []
      (by decide) (by decide) (by decide) (by decide) (by decide)⟩

/-! ### Claim C9: empty-skills contacts -/

/-- C9: `create_contact` does not enforce the non-empty-skills precondition:
for an empty skills list it still returns `OK`, writes a `QUEUED` contact
record with no agent, and queues the key.  When the dispatcher later pops
such a contact, the skill list maps to an empty `ZINTER` key set, the
intersection raises, and the `except` block drops the contact: the store is
left exactly as after the pop — no requeue, no agent claimed, no document
changed. -/
theorem C9_empty_skills_contact :
    (∀ (st : Store) (ck : String) (now : Nat),
      (create_contact st ck [] now).2 = ⟨RESPONSE_TYPE.OK, some ck⟩ ∧
      alookup (create_contact st ck [] now).1.contacts ck =
        some ⟨[], CONTACT_STATE.QUEUED, none⟩ ∧
      alookup (create_contact st ck [] now).1.queue ck = some now) ∧
    (∀ (st : Store) (now : Nat) (ck : String) (sc : Nat) (q' : List (String × Nat))
      (c : Contact),
      zpopmin st.queue = some ((ck, sc), q') →
      alookup st.contacts ck = some c → c.skills = [] →
      dispatchIteration st now = ({ st with queue := q' }, DispResult.errored ck)) := by
  constructor
  · intro st ck now
    refine ⟨rfl, ?_, ?_⟩
    · exact alookup_aset_self st.contacts ck ⟨[], CONTACT_STATE.QUEUED, none⟩
    · exact alookup_aset_self st.queue ck now
  · intro st now ck sc q' c hpop hc hskills
    unfold dispatchIteration
    rw [hpop]
    dsimp only
    rw [hc]
    dsimp only
    rw [hskills]
    rfl

/-- The store after `create_contact` with an empty skills list. -/
def w9Store : Store := (create_contact emptyStore "contact:1" [] 10).1

theorem C9_empty_skills_contact_witness :
    ((create_contact emptyStore "contact:1" [] 10).2 = ⟨RESPONSE_TYPE.OK, some "contact:1"⟩ ∧
      alookup w9Store.contacts "contact:1" = some ⟨[], CONTACT_STATE.QUEUED, none⟩ ∧
      alookup w9Store.queue "contact:1" = some 10) ∧
    (zpopmin w9Store.queue = some (("contact:1", 10), []) ∧
      alookup w9Store.contacts "contact:1" = some ⟨[], CONTACT_STATE.QUEUED, none⟩) ∧
    dispatchIteration w9Store 20 = ({ w9Store with queue := [] }, DispResult.errored "contact:1") :=
  ⟨C9_empty_skills_contact.1 emptyStore "contact:1" 10,
    ⟨by decide, by decide⟩,
    C9_empty_skills_contact.2 w9Store 20 "contact:1" 10 [] ⟨[], CONTACT_STATE.QUEUED, none⟩
      (by decide) (by decide) (by decide)⟩

/-! ### Claim C5: index removal vs. state flip ordering -/

/-- Once the agent is out of an availability index, the remaining
`UNAVAILABLE` round-trips never put it back. -/
theorem statesAlong_unavail_keep_out (k : String) (now : Nat) :
    ∀ (l : List String) (st : Store) (s : String), k ∉ zmembers (st.avail s) →
    ∀ x ∈ statesAlong st (sasSteps k AGENT_STATE.UNAVAILABLE now l),
      k ∉ zmembers (x.avail s) := by
  intro l
  induction l with
  | nil =>
    intro st s hout x hx
    simp only [sasSteps, List.flatMap_nil, statesAlong, List.mem_singleton] at hx
    subst hx
    exact hout
  | cons s0 t ih =>
    intro st s hout x hx
    rw [sasSteps_cons] at hx
    have hrem : ∀ s', (updAvail st s0 (fun z => aerase z k)).avail s' =
        if s' = s0 then aerase (st.avail s') k else st.avail s' := fun s' => rfl
    have houtRem : k ∉ zmembers ((updAvail st s0 (fun z => aerase z k)).avail s) := by
      rw [hrem]
      by_cases hs : s = s0
      · rw [if_pos hs]
        exact fun hmem => ((mem_zmembers_aerase.mp hmem).2) rfl
      · rw [if_neg hs]
        exact hout
    simp only [sasSkillSteps, List.append_eq, List.cons_append, List.nil_append, statesAlong,
      List.mem_cons] at hx
    rcases hx with hx | hx | hx
    · subst hx
      exact hout
    · subst hx
      exact houtRem
    · exact ih { (updAvail st s0 (fun z => aerase z k)) with
          agents := (aupdate (updAvail st s0 (fun z => aerase z k)).agents k
            (fun a => { a with state := AGENT_STATE.UNAVAILABLE })) } s houtRem x hx

/-- CORRECTED C5: during `set_agent_state(k, UNAVAILABLE)` on an existing
`AVAILABLE` agent, each loop iteration performs the `ZREM` *before* the state
write of that same iteration: the removal from the *first* skill's index
precedes every write that flips the stored state to `UNAVAILABLE`, and when
the operation returns the agent is out of `avail:{s}` for every skill `s`.
The ordering does NOT extend across skills: for an agent with two or more
skills the state flip of the first iteration happens while the agent is still
indexed under the later skills (see the counterexample). -/
theorem C5_unavailable_ordering (st : Store) (k : String) (a : Agent) (now : Nat)
    (s0 : String) (rest : List String)
    (hl : st.locks (lockName k) = false)
    (ha : alookup st.agents k = some a)
    (hav : a.state = AGENT_STATE.AVAILABLE)
    (hsk : a.skills = s0 :: rest) :
    set_agent_state st k AGENT_STATE.UNAVAILABLE now =
      (applySteps st (sasSteps k AGENT_STATE.UNAVAILABLE now a.skills),
       OpResult.ret ⟨RESPONSE_TYPE.OK, some k⟩) ∧
    (∀ x ∈ statesAlong st (sasSteps k AGENT_STATE.UNAVAILABLE now a.skills),
      (alookup x.agents k).map Agent.state = some AGENT_STATE.UNAVAILABLE →
      k ∉ zmembers (x.avail s0)) ∧
    (∀ s ∈ a.skills,
      k ∉ zmembers ((set_agent_state st k AGENT_STATE.UNAVAILABLE now).1.avail s)) := by
  have hne : a.state ≠ AGENT_STATE.UNAVAILABLE := by
    rw [hav]
    intro h
    exact absurd h (by decide)
  have h1 := sas_ok now hl ha hne
  refine ⟨h1, ?_, ?_⟩
  · intro x hx hstate
    rw [hsk] at hx
    rw [sasSteps_cons] at hx
    simp only [sasSkillSteps, List.append_eq, List.cons_append, List.nil_append, statesAlong,
      List.mem_cons] at hx
    have houtRem : k ∉ zmembers ((updAvail st s0 (fun z => aerase z k)).avail s0) := by
      have : (updAvail st s0 (fun z => aerase z k)).avail s0 = aerase (st.avail s0) k := by
        simp [updAvail]
      rw [this]
      exact fun hmem => ((mem_zmembers_aerase.mp hmem).2) rfl
    rcases hx with hx | hx | hx
    · subst hx
      rw [ha] at hstate
      simp only [Option.map_some'] at hstate
      rw [hav] at hstate
      exact absurd (Option.some.inj hstate) (by decide)
    · subst hx
      have hst : (updAvail st s0 (fun z => aerase z k)).agents = st.agents := rfl
      rw [hst, ha] at hstate
      simp only [Option.map_some'] at hstate
      rw [hav] at hstate
      exact absurd (Option.some.inj hstate) (by decide)
    · exact statesAlong_unavail_keep_out k now rest
        { (updAvail st s0 (fun z => aerase z k)) with
          agents := (aupdate (updAvail st s0 (fun z => aerase z k)).agents k
            (fun a => { a with state := AGENT_STATE.UNAVAILABLE })) } s0 houtRem x hx
  · intro s hs
    rw [h1]
    simp only
    rw [sas_apply_avail_unavail k now a.skills st s, if_pos hs]
    exact fun hmem => ((mem_zmembers_aerase.mp hmem).2) rfl

/-- A two-skill agent made `AVAILABLE` (so it sits in both indexes). -/
def c5Store : Store :=
  (set_agent_state ((create_agent emptyStore "agent:1" "Ann" "Lee" ["s1", "s2"]).1)
    "agent:1" AGENT_STATE.AVAILABLE 5).1

/-- The store observable after the third round-trip of
`set_agent_state("agent:1", UNAVAILABLE)` on `c5Store` (ZREM on `s1`, state
write, and nothing yet for `s2`). -/
def c5Mid : Store :=
  (statesAlong c5Store (sasSteps "agent:1" AGENT_STATE.UNAVAILABLE 7 ["s1", "s2"])).getD 2
    emptyStore

/-- C5 counterexample: for an agent with two skills there IS an intermediate
store state in which the agent's stored state is already `UNAVAILABLE` while
it is still a member of `avail:{s2}` — the state flip does not wait for all
index removals, because the `JSON.SET` of `$.state` sits inside the per-skill
loop. -/
theorem C5_counterexample :
    (alookup c5Store.agents "agent:1").map Agent.skills = some ["s1", "s2"] ∧
    (alookup c5Store.agents "agent:1").map Agent.state = some AGENT_STATE.AVAILABLE ∧
    (alookup c5Mid.agents "agent:1").map Agent.state = some AGENT_STATE.UNAVAILABLE ∧
    "agent:1" ∈ zmembers (c5Mid.avail "s2") := by
  refine ⟨by decide, by decide, by decide, by decide⟩

theorem C5_unavailable_ordering_witness :
    (c5Store.locks (lockName "agent:1") = false ∧
      alookup c5Store.agents "agent:1" =
        some ⟨"agent:1", "Ann", "Lee", ["s1", "s2"], AGENT_STATE.AVAILABLE⟩) ∧
    (set_agent_state c5Store "agent:1" AGENT_STATE.UNAVAILABLE 7 =
      (applySteps c5Store (sasSteps "agent:1" AGENT_STATE.UNAVAILABLE 7 ["s1", "s2"]),
       OpResult.ret ⟨RESPONSE_TYPE.OK, some "agent:1"⟩) ∧
    (∀ x ∈ statesAlong c5Store (sasSteps "agent:1" AGENT_STATE.UNAVAILABLE 7 ["s1", "s2"]),
      (alookup x.agents "agent:1").map Agent.state = some AGENT_STATE.UNAVAILABLE →
      "agent:1" ∉ zmembers (x.avail "s1")) ∧
    (∀ s ∈ (["s1", "s2"] : List String),
      "agent:1" ∉
        zmembers ((set_agent_state c5Store "agent:1" AGENT_STATE.UNAVAILABLE 7).1.avail s))) :=
  ⟨⟨by decide, by decide⟩,
    C5_unavailable_ordering c5Store "agent:1"
      ⟨"agent:1", "Ann", "Lee", ["s1", "s2"], AGENT_STATE.AVAILABLE⟩ 7 "s1" ["s2"]
      (by decide) (by decide) (by decide) (by decide)⟩

/-! ### Claim C6: longest-available-agent selection -/

/-- C6: when the intersection of the popped contact's per-skill availability
indexes is non-empty and quiescence holds for the head candidate (its agent
document exists in state `AVAILABLE` with its lock free), the candidate list
returned by `ZINTER` is ordered by summed score ascending, the head — whose
claim is the first to return `OK` — is assigned, and its summed score is less
than or equal to the score of every member of the intersection as returned by
`ZINTER`. -/
theorem C6_laa_selection (st : Store) (now : Nat) (ck : String) (sc : Nat)
    (q' : List (String × Nat)) (c : Contact) (w : String) (wsc : Nat)
    (cs : List (String × Nat)) (aw : Agent)
    (hpop : zpopmin st.queue = some ((ck, sc), q'))
    (hc : alookup st.contacts ck = some c)
    (hz : zinterAll (c.skills.map st.avail) = some ((w, wsc) :: cs))
    (haw : alookup st.agents w = some aw)
    (hstate : aw.state = AGENT_STATE.AVAILABLE)
    (hlock : st.locks (lockName w) = false) :
    ((w, wsc) :: cs).Pairwise (fun p q => p.2 ≤ q.2) ∧
    (∀ p ∈ (w, wsc) :: cs, wsc ≤ p.2) ∧
    (dispatchIteration st now).2 = DispResult.assigned ck w ∧
    alookup (dispatchIteration st now).1.contacts ck =
      some { c with agent := some w, state := CONTACT_STATE.ASSIGNED } := by
  have hne : aw.state ≠ AGENT_STATE.UNAVAILABLE := by
    rw [hstate]
    intro h
    exact absurd h (by decide)
  have hsorted : ((w, wsc) :: cs).Pairwise (fun p q => p.2 ≤ q.2) := by
    match hmap : c.skills.map st.avail with
    | [] =>
      rw [hmap] at hz
      exact absurd hz (by simp [zinterAll])
    | z0 :: restz =>
      rw [hmap] at hz
      have : zinterPairs z0 restz = (w, wsc) :: cs := by
        have := hz
        simp only [zinterAll] at this
        exact Option.some.inj this
      rw [← this]
      exact pairwise_zinterPairs z0 restz
  have hmin : ∀ p ∈ (w, wsc) :: cs, wsc ≤ p.2 := by
    intro p hp
    rcases List.mem_cons.mp hp with hp | hp
    · subst hp
      exact Nat.le_refl _
    · exact (List.pairwise_cons.mp hsorted).1 p hp
  have hlock1 : ({ st with queue := q' } : Store).locks (lockName w) = false := hlock
  have haw1 : alookup ({ st with queue := q' } : Store).agents w = some aw := haw
  have hret : (set_agent_state { st with queue := q' } w AGENT_STATE.UNAVAILABLE now).2
      = OpResult.ret ⟨RESPONSE_TYPE.OK, some w⟩ := by
    rw [sas_ok now hlock1 haw1 hne]
  have hclaim : tryClaim now { st with queue := q' } (((w, wsc) :: cs).map Prod.fst) =
      ((set_agent_state { st with queue := q' } w AGENT_STATE.UNAVAILABLE now).1,
       ClaimOutcome.winner w) := by
    rw [List.map_cons]
    exact tryClaim_cons_ok now (cs.map Prod.fst) hret rfl
  have hmain : dispatchIteration st now =
      ({ (set_agent_state { st with queue := q' } w AGENT_STATE.UNAVAILABLE now).1 with
          contacts := (aupdate
            (set_agent_state { st with queue := q' } w AGENT_STATE.UNAVAILABLE now).1.contacts
            ck (fun c0 => { c0 with agent := some w, state := CONTACT_STATE.ASSIGNED })) },
       DispResult.assigned ck w) := by
    unfold dispatchIteration
    rw [hpop]
    dsimp only
    rw [hc]
    dsimp only
    rw [hz]
    dsimp only
    rw [hclaim]
  refine ⟨hsorted, hmin, by rw [hmain], ?_⟩
  rw [hmain]
  simp only
  rw [alookup_aupdate_self, sas_contacts_eq]
  have : alookup ({ st with queue := q' } : Store).contacts ck = some c := hc
  rw [this]
  rfl

/-- One available agent with the matching skill and one queued contact. -/
def w6Store : Store :=
  (create_contact ((set_agent_state ((create_agent emptyStore "agent:1" "Ann" "Lee" ["s1"]).1)
    "agent:1" AGENT_STATE.AVAILABLE 5).1) "contact:1" ["s1"] 10).1

theorem C6_laa_selection_witness :
    (zpopmin w6Store.queue = some (("contact:1", 10), []) ∧
      alookup w6Store.contacts "contact:1" = some ⟨["s1"], CONTACT_STATE.QUEUED, none⟩ ∧
      zinterAll ((["s1"] : List String).map w6Store.avail) = some [("agent:1", 5)] ∧
      alookup w6Store.agents "agent:1" =
        some ⟨"agent:1", "Ann", "Lee", ["s1"], AGENT_STATE.AVAILABLE⟩ ∧
      w6Store.locks (lockName "agent:1") = false) ∧
    (([("agent:1", 5)] : List (String × Nat)).Pairwise (fun p q => p.2 ≤ q.2) ∧
    (∀ p ∈ ([("agent:1", 5)] : List (String × Nat)), 5 ≤ p.2) ∧
    (dispatchIteration w6Store 20).2 = DispResult.assigned "contact:1" "agent:1" ∧
    alookup (dispatchIteration w6Store 20).1.contacts "contact:1" =
      some ⟨["s1"], CONTACT_STATE.ASSIGNED, some "agent:1"⟩) :=
  ⟨⟨by decide, by decide, by decide, by decide, by decide⟩,
    C6_laa_selection w6Store 20 "contact:1" 10 [] ⟨["s1"], CONTACT_STATE.QUEUED, none⟩
      "agent:1" 5 [] ⟨"agent:1", "Ann", "Lee", ["s1"], AGENT_STATE.AVAILABLE⟩
      (by decide) (by decide) (by decide) (by decide) (by decide) (by decide)⟩

/-! ### Claim C2: abandoned contacts at dispatch time -/

/-- CORRECTED C2: if a contact is completed while still queued and the
dispatcher pops it and *no candidate claim succeeds* (in particular whenever
the availability intersection is empty), the contact is dropped: it is not
requeued and the store is left exactly as it was after the pop — no agent is
claimed and no document is changed.  (When a candidate claim does succeed the
dispatcher claims that agent and assigns the completed contact; see the
counterexample.) -/
theorem C2_abandoned_drop (st : Store) (now : Nat) (ck : String) (sc : Nat)
    (q' : List (String × Nat)) (c : Contact) (cands : List (String × Nat))
    (hpop : zpopmin st.queue = some ((ck, sc), q'))
    (hc : alookup st.contacts ck = some c)
    (hz : zinterAll (c.skills.map st.avail) = some cands)
    (hclaim : (tryClaim now { st with queue := q' } (cands.map Prod.fst)).2 =
      ClaimOutcome.exhausted)
    (hstate : c.state = CONTACT_STATE.COMPLETE) :
    dispatchIteration st now = ({ st with queue := q' }, DispResult.dropped ck) := by
  have hpair : tryClaim now { st with queue := q' } (cands.map Prod.fst) =
      ({ st with queue := q' }, ClaimOutcome.exhausted) := by
    have h1 := tryClaim_exhausted_unchanged now (cands.map Prod.fst) { st with queue := q' }
      hclaim
    have := Prod.mk.eta (p := tryClaim now { st with queue := q' } (cands.map Prod.fst))
    rw [← this, h1, hclaim]
  unfold dispatchIteration
  rw [hpop]
  dsimp only
  rw [hc]
  dsimp only
  rw [hz]
  dsimp only
  rw [hpair]
  dsimp only
  rw [hc]
  dsimp only
  rw [if_pos hstate]

/-- An available matching agent plus a contact that was completed by the REST
client while it was still queued. -/
def cexStore : Store :=
  (complete_contact ((create_contact ((set_agent_state
    ((create_agent emptyStore "agent:1" "Ann" "Lee" ["s1"]).1)
    "agent:1" AGENT_STATE.AVAILABLE 5).1) "contact:1" ["s1"] 10).1) "contact:1").1

/-- C2 counterexample: the dispatcher pops the completed-but-still-queued
contact, and because a matching agent is available its claim succeeds: an
agent IS claimed (flipped to `UNAVAILABLE`) on behalf of the completed
contact, contradicting the claim that no claim is performed for it. -/
theorem C2_counterexample :
    (alookup cexStore.contacts "contact:1").map Contact.state =
      some CONTACT_STATE.COMPLETE ∧
    zpopmin cexStore.queue = some (("contact:1", 10), []) ∧
    (dispatchIteration cexStore 20).2 = DispResult.assigned "contact:1" "agent:1" ∧
    (alookup (dispatchIteration cexStore 20).1.agents "agent:1").map Agent.state =
      some AGENT_STATE.UNAVAILABLE := by
  refine ⟨by decide, by decide, by decide, by decide⟩

/-- A completed-while-queued contact with no matching agent at all. -/
def w2Store : Store :=
  (complete_contact ((create_contact emptyStore "contact:1" ["s1"] 10).1) "contact:1").1

theorem C2_abandoned_drop_witness :
    (zpopmin w2Store.queue = some (("contact:1", 10), []) ∧
      alookup w2Store.contacts "contact:1" = some ⟨["s1"], CONTACT_STATE.COMPLETE, none⟩ ∧
      zinterAll ((["s1"] : List String).map w2Store.avail) = some [] ∧
      (tryClaim 20 { w2Store with queue := [] }
        (([] : List (String × Nat)).map Prod.fst)).2 = ClaimOutcome.exhausted) ∧
    dispatchIteration w2Store 20 = ({ w2Store with queue := [] }, DispResult.dropped "contact:1") :=
  ⟨⟨by decide, by decide, by decide, by decide⟩,
    C2_abandoned_drop w2Store 20 "contact:1" 10 [] ⟨["s1"], CONTACT_STATE.COMPLETE, none⟩ []
      (by decide) (by decide) (by decide) (by decide) (by decide)⟩

/-! ### Claim C1: terminality of `COMPLETE` -/

/-- The contact stored at `ck` exists and is `COMPLETE`. -/
def completeAt (st : Store) (ck : String) : Prop :=
  ∃ c, alookup st.contacts ck = some c ∧ c.state = CONTACT_STATE.COMPLETE

/-- One sequentially completed call of any operation of the operations layer
(`operations.py`).  `createContactStep` carries the freshness of the
`contact:<uuid4>` key. -/
inductive OpStep : Store → Store → Prop where
  | createContactStep (st : Store) (ck : String) (skills : List String) (now : Nat)
      (hfresh : alookup st.contacts ck = none) :
      OpStep st (create_contact st ck skills now).1
  | completeContactStep (st : Store) (ck : String) :
      OpStep st (complete_contact st ck).1
  | getContactStep (st : Store) (ck : String) :
      OpStep st (get_contact st ck).1
  | createAgentStep (st : Store) (k f l : String) (skills : List String) :
      OpStep st (create_agent st k f l skills).1
  | deleteAgentStep (st : Store) (k : String) :
      OpStep st (delete_agent st k).1
  | setAgentStateStep (st : Store) (k : String) (target : AGENT_STATE) (now : Nat) :
      OpStep st (set_agent_state st k target now).1
  | changeAgentInfoStep (st : Store) (k f l : String) :
      OpStep st (change_agent_info st k f l).1
  | addAgentSkillStep (st : Store) (k s : String) (now : Nat) :
      OpStep st (add_agent_skill st k s now).1
  | deleteAgentSkillStep (st : Store) (k s : String) :
      OpStep st (delete_agent_skill st k s).1
  | deleteSkillStep (st : Store) (s : String) :
      OpStep st (delete_skill st s).1
  | setAcdStateStep (st : Store) (acd : ACD_STATE) (now : Nat) :
      OpStep st (set_acd_state st acd now).1

/-- CORRECTED C1: a `COMPLETE` contact stays `COMPLETE` across every
operation of the operations layer, and across every dispatcher iteration
that does not assign that very contact.  The exception is real: a dispatcher
iteration that pops a completed-but-still-queued contact and successfully
claims a matching agent sets its state to `ASSIGNED` (see the
counterexample), because the abandonment re-read guards only the no-winner
path. -/
theorem C1_complete_terminal :
    (∀ (st st' : Store), OpStep st st' → ∀ ck, completeAt st ck → completeAt st' ck) ∧
    (∀ (st : Store) (now : Nat) (ck : String), completeAt st ck →
      (∀ ag, (dispatchIteration st now).2 ≠ DispResult.assigned ck ag) →
      completeAt (dispatchIteration st now).1 ck) := by
  constructor
  · intro st st' hstep ck hcomp
    rcases hcomp with ⟨c, hlook, hcst⟩
    cases hstep with
    | createContactStep ck0 skills now hfresh =>
      have hne : ck ≠ ck0 := by
        intro h
        rw [h, hfresh] at hlook
        exact Option.noConfusion hlook
      refine ⟨c, ?_, hcst⟩
      show alookup (aset st.contacts ck0 ⟨skills, CONTACT_STATE.QUEUED, none⟩) ck = some c
      rw [alookup_aset_ne _ _ hne]
      exact hlook
    | completeContactStep ck0 =>
      match hc0 : alookup st.contacts ck0 with
      | none =>
        refine ⟨c, ?_, hcst⟩
        simp only [complete_contact, hc0]
        exact hlook
      | some c0 =>
        by_cases hne : ck = ck0
        · subst hne
          refine ⟨{ c with state := CONTACT_STATE.COMPLETE }, ?_, rfl⟩
          simp only [complete_contact, hc0]
          rw [alookup_aupdate_self, hlook]
          rfl
        · refine ⟨c, ?_, hcst⟩
          simp only [complete_contact, hc0]
          rw [alookup_aupdate_ne _ _ hne]
          exact hlook
    | getContactStep ck0 =>
      have h : (get_contact st ck0).1 = st := by
        match hc0 : alookup st.contacts ck0 with
        | none => simp [get_contact, hc0]
        | some c0 => simp [get_contact, hc0]
      rw [h]
      exact ⟨c, hlook, hcst⟩
    | createAgentStep k f l skills =>
      refine ⟨c, ?_, hcst⟩
      rw [create_agent_contacts]
      exact hlook
    | deleteAgentStep k =>
      refine ⟨c, ?_, hcst⟩
      rw [delete_agent_contacts]
      exact hlook
    | setAgentStateStep k target now =>
      refine ⟨c, ?_, hcst⟩
      rw [sas_contacts_eq]
      exact hlook
    | changeAgentInfoStep k f l =>
      refine ⟨c, ?_, hcst⟩
      rw [change_agent_info_contacts]
      exact hlook
    | addAgentSkillStep k s now =>
      refine ⟨c, ?_, hcst⟩
      rw [add_agent_skill_contacts]
      exact hlook
    | deleteAgentSkillStep k s =>
      refine ⟨c, ?_, hcst⟩
      rw [delete_agent_skill_contacts]
      exact hlook
    | deleteSkillStep s =>
      refine ⟨c, ?_, hcst⟩
      rw [delete_skill_contacts]
      exact hlook
    | setAcdStateStep acd now =>
      refine ⟨c, ?_, hcst⟩
      rw [set_acd_state_contacts]
      exact hlook
  · intro st now ck hcomp hnotass
    rcases hcomp with ⟨c, hlook, hcst⟩
    match hq : zpopmin st.queue with
    | none =>
      have heq : dispatchIteration st now = (st, DispResult.idle) := by
        unfold dispatchIteration
        rw [hq]
      rw [heq]
      exact ⟨c, hlook, hcst⟩
    | some ((ck0, sc), q') =>
      have hlook1 : alookup ({ st with queue := q' } : Store).contacts ck = some c := hlook
      match hc0 : alookup ({ st with queue := q' } : Store).contacts ck0 with
      | none =>
        have heq : dispatchIteration st now = ({ st with queue := q' }, DispResult.errored ck0) := by
          unfold dispatchIteration
          rw [hq]
          dsimp only
          rw [hc0]
        rw [heq]
        exact ⟨c, hlook1, hcst⟩
      | some c0 =>
        match hz : zinterAll (c0.skills.map ({ st with queue := q' } : Store).avail) with
        | none =>
          have heq : dispatchIteration st now =
              ({ st with queue := q' }, DispResult.errored ck0) := by
            unfold dispatchIteration
            rw [hq]
            dsimp only
            rw [hc0]
            dsimp only
            rw [hz]
          rw [heq]
          exact ⟨c, hlook1, hcst⟩
        | some cands =>
          match htc : tryClaim now { st with queue := q' } (cands.map Prod.fst) with
          | (st2, ClaimOutcome.raised) =>
            have hc2 : st2.contacts = st.contacts := by
              have := tryClaim_contacts now (cands.map Prod.fst) { st with queue := q' }
              rw [htc] at this
              exact this
            have heq : dispatchIteration st now = (st2, DispResult.errored ck0) := by
              unfold dispatchIteration
              rw [hq]
              dsimp only
              rw [hc0]
              dsimp only
              rw [hz]
              dsimp only
              rw [htc]
            rw [heq]
            refine ⟨c, ?_, hcst⟩
            rw [hc2]
            exact hlook
          | (st2, ClaimOutcome.winner winner) =>
            have heq : dispatchIteration st now =
                ({ st2 with contacts := (aupdate st2.contacts ck0
                    (fun cc => { cc with agent := some winner, state := CONTACT_STATE.ASSIGNED })) },
                 DispResult.assigned ck0 winner) := by
              unfold dispatchIteration
              rw [hq]
              dsimp only
              rw [hc0]
              dsimp only
              rw [hz]
              dsimp only
              rw [htc]
            have hne : ck ≠ ck0 := by
              intro h
              subst h
              exact hnotass winner (by rw [heq])
            have hc2 : st2.contacts = st.contacts := by
              have := tryClaim_contacts now (cands.map Prod.fst) { st with queue := q' }
              rw [htc] at this
              exact this
            rw [heq]
            refine ⟨c, ?_, hcst⟩
            show alookup (aupdate st2.contacts ck0 _) ck = some c
            rw [alookup_aupdate_ne _ _ hne, hc2]
            exact hlook
          | (st2, ClaimOutcome.exhausted) =>
            have hc2 : st2.contacts = st.contacts := by
              have := tryClaim_contacts now (cands.map Prod.fst) { st with queue := q' }
              rw [htc] at this
              exact this
            have hlook2 : alookup st2.contacts ck = some c := by
              rw [hc2]
              exact hlook
            match hr2 : alookup st2.contacts ck0 with
            | none =>
              have heq : dispatchIteration st now = (st2, DispResult.errored ck0) := by
                unfold dispatchIteration
                rw [hq]
                dsimp only
                rw [hc0]
                dsimp only
                rw [hz]
                dsimp only
                rw [htc]
                dsimp only
                rw [hr2]
              rw [heq]
              exact ⟨c, hlook2, hcst⟩
            | some c2 =>
              by_cases hdone : c2.state = CONTACT_STATE.COMPLETE
              · have heq : dispatchIteration st now = (st2, DispResult.dropped ck0) := by
                  unfold dispatchIteration
                  rw [hq]
                  dsimp only
                  rw [hc0]
                  dsimp only
                  rw [hz]
                  dsimp only
                  rw [htc]
                  dsimp only
                  rw [hr2]
                  dsimp only
                  rw [if_pos hdone]
                rw [heq]
                exact ⟨c, hlook2, hcst⟩
              · have heq : dispatchIteration st now =
                    ({ st2 with queue := aset st2.queue ck0 (sc + 1000) },
                     DispResult.requeued ck0 (sc + 1000)) := by
                  unfold dispatchIteration
                  rw [hq]
                  dsimp only
                  rw [hc0]
                  dsimp only
                  rw [hz]
                  dsimp only
                  rw [htc]
                  dsimp only
                  rw [hr2]
                  dsimp only
                  rw [if_neg hdone]
                rw [heq]
                exact ⟨c, hlook2, hcst⟩

/-- C1 counterexample: a reachable store holds a `COMPLETE` contact that is
still queued and an `AVAILABLE` matching agent; the next dispatcher iteration
pops the completed contact, wins a claim, and rewrites its state to
`ASSIGNED` — so a contact in `COMPLETE` IS subsequently observed in another
state. -/
theorem C1_counterexample :
    (alookup cexStore.contacts "contact:1").map Contact.state =
      some CONTACT_STATE.COMPLETE ∧
    alookup cexStore.queue "contact:1" = some 10 ∧
    (alookup (dispatchIteration cexStore 20).1.contacts "contact:1").map Contact.state =
      some CONTACT_STATE.ASSIGNED := by
  refine ⟨by decide, by decide, by decide⟩

theorem C1_complete_terminal_witness :
    (completeAt w2Store "contact:1" ∧
      (∀ ag, (dispatchIteration w2Store 20).2 ≠ DispResult.assigned "contact:1" ag)) ∧
    completeAt (change_agent_info w2Store "agent:9" "x" "y").1 "contact:1" ∧
    completeAt (complete_contact w2Store "contact:1").1 "contact:1" ∧
    completeAt (dispatchIteration w2Store 20).1 "contact:1" :=
  ⟨⟨⟨⟨["s1"], CONTACT_STATE.COMPLETE, none⟩, by decide, rfl⟩,
      fun ag h => by
        rw [show (dispatchIteration w2Store 20).2 = DispResult.dropped "contact:1" from by decide]
          at h
        exact DispResult.noConfusion h⟩,
    C1_complete_terminal.1 w2Store (change_agent_info w2Store "agent:9" "x" "y").1
      (OpStep.changeAgentInfoStep w2Store "agent:9" "x" "y") "contact:1"
      ⟨⟨["s1"], CONTACT_STATE.COMPLETE, none⟩, by decide, rfl⟩,
    C1_complete_terminal.1 w2Store (complete_contact w2Store "contact:1").1
      (OpStep.completeContactStep w2Store "contact:1") "contact:1"
      ⟨⟨["s1"], CONTACT_STATE.COMPLETE, none⟩, by decide, rfl⟩,
    C1_complete_terminal.2 w2Store 20 "contact:1"
      ⟨⟨["s1"], CONTACT_STATE.COMPLETE, none⟩, by decide, rfl⟩
      (fun ag h => by
        rw [show (dispatchIteration w2Store 20).2 = DispResult.dropped "contact:1" from by decide]
          at h
        exact DispResult.noConfusion h)⟩

/-! ### Claim C3: the Index⇔State invariant -/

/-- Every stored agent's skills list is duplicate-free. -/
def SkillsNodup (st : Store) : Prop :=
  ∀ k a, alookup st.agents k = some a → a.skills.Nodup

/-- No advisory lock is held (true between sequentially completed calls). -/
def LocksFree (st : Store) : Prop := ∀ n, st.locks n = false

/-- Invariant I1 / P2: an agent key is a member of `avail:{s}` exactly when
its document exists, its state is `AVAILABLE`, and `s` occurs in its skills
list. -/
def IndexState (st : Store) : Prop :=
  ∀ s k, k ∈ zmembers (st.avail s) ↔
    ∃ a, alookup st.agents k = some a ∧ a.state = AGENT_STATE.AVAILABLE ∧ s ∈ a.skills

/-- The inductive invariant carried through the reachability proof. -/
def AgentInv (st : Store) : Prop := SkillsNodup st ∧ LocksFree st ∧ IndexState st

theorem agentInv_congr {st st' : Store} (hag : st'.agents = st.agents)
    (hav : ∀ s, st'.avail s = st.avail s) (hlk : st'.locks = st.locks) :
    AgentInv st → AgentInv st' := by
  rintro ⟨hnd, hlf, hidx⟩
  refine ⟨?_, ?_, ?_⟩
  · intro k a ha
    rw [hag] at ha
    exact hnd k a ha
  · intro n
    rw [hlk]
    exact hlf n
  · intro s k
    rw [hav s, hag]
    exact hidx s k

theorem agentInv_empty : AgentInv emptyStore := by
  refine ⟨?_, ?_, ?_⟩
  · intro k a ha
    simp [emptyStore, alookup] at ha
  · intro n
    rfl
  · intro s k
    constructor
    · intro h
      simp [emptyStore, zmembers] at h
    · rintro ⟨a, ha, _⟩
      simp [emptyStore, alookup] at ha

/-- `set_agent_state` preserves the agent invariant, with no preconditions:
the `LOCKED`/`ERR` branches do not mutate, and the `OK` branch rewrites the
state together with every listed skill's index entry. -/
theorem sas_inv (st : Store) (k : String) (target : AGENT_STATE) (now : Nat)
    (hinv : AgentInv st) : AgentInv (set_agent_state st k target now).1 := by
  obtain ⟨hnd, hlf, hidx⟩ := hinv
  by_cases hl : st.locks (lockName k)
  · rw [sas_contended target now hl]
    exact ⟨hnd, hlf, hidx⟩
  · rw [Bool.not_eq_true] at hl
    match hls : alookup st.agents k with
    | none =>
      rw [sas_missing target now hl hls]
      exact ⟨hnd, hlf, hidx⟩
    | some a =>
      by_cases hs : a.state = target
      · rw [sas_already now hl hls hs]
        exact ⟨hnd, hlf, hidx⟩
      · rw [sas_ok now hl hls hs]
        simp only
        by_cases hsk : a.skills = []
        · rw [hsk]
          exact ⟨hnd, hlf, hidx⟩
        · have hag : (applySteps st (sasSteps k target now a.skills)).agents =
            aupdate st.agents k (fun a0 => { a0 with state := target }) :=
            sas_apply_agents k target now a.skills st hsk
          have hlk : (applySteps st (sasSteps k target now a.skills)).locks = st.locks :=
            sas_apply_locks k target now a.skills st
          refine ⟨?_, ?_, ?_⟩
          · intro k' a' ha'
            rw [hag] at ha'
            by_cases hk' : k' = k
            · subst hk'
              rw [alookup_aupdate_self, hls] at ha'
              simp only [Option.map_some'] at ha'
              have : a'.skills = a.skills := by
                rw [← Option.some.inj ha']
              rw [this]
              exact hnd k' a hls
            · rw [alookup_aupdate_ne _ _ hk'] at ha'
              exact hnd k' a' ha'
          · intro n
            rw [hlk]
            exact hlf n
          · intro s k'
            cases target with
            | AVAILABLE =>
              have hstU : a.state = AGENT_STATE.UNAVAILABLE := by
                cases ha : a.state
                · exact absurd ha hs
                · rfl
              have hav : (applySteps st (sasSteps k AGENT_STATE.AVAILABLE now a.skills)).avail s =
                  if s ∈ a.skills then aset (st.avail s) k now else st.avail s :=
                sas_apply_avail_avail k now a.skills st s
              rw [hav, hag]
              by_cases hk' : k' = k
              · subst hk'
                by_cases hss : s ∈ a.skills
                · rw [if_pos hss]
                  constructor
                  · intro _
                    refine ⟨{ a with state := AGENT_STATE.AVAILABLE }, ?_, rfl, hss⟩
                    rw [alookup_aupdate_self, hls]
                    rfl
                  · intro _
                    exact mem_zmembers_aset.mpr (Or.inr rfl)
                · rw [if_neg hss]
                  constructor
                  · intro hmem
                    rcases (hidx s k').mp hmem with ⟨a0, ha0, hav0, _⟩
                    rw [hls] at ha0
                    rw [Option.some.inj ha0] at hstU
                    rw [hav0] at hstU
                    exact absurd hstU (by decide)
                  · rintro ⟨a', ha', _, hsk'⟩
                    rw [alookup_aupdate_self, hls] at ha'
                    simp only [Option.map_some'] at ha'
                    rw [← Option.some.inj ha'] at hsk'
                    exact absurd hsk' hss
              · have hlk' : alookup (aupdate st.agents k
                    (fun a0 => { a0 with state := AGENT_STATE.AVAILABLE })) k' =
                    alookup st.agents k' := alookup_aupdate_ne _ _ hk'
                by_cases hss : s ∈ a.skills
                · rw [if_pos hss]
                  constructor
                  · intro hmem
                    rcases mem_zmembers_aset.mp hmem with hmem | hmem
                    · rcases (hidx s k').mp hmem with ⟨a0, ha0, hav0, hsk0⟩
                      refine ⟨a0, ?_, hav0, hsk0⟩
                      rw [hlk']
                      exact ha0
                    · exact absurd hmem hk'
                  · rintro ⟨a', ha', hav', hsk'⟩
                    rw [hlk'] at ha'
                    exact mem_zmembers_aset.mpr (Or.inl ((hidx s k').mpr ⟨a', ha', hav', hsk'⟩))
                · rw [if_neg hss]
                  rw [hlk']
                  exact hidx s k'
            | UNAVAILABLE =>
              have hstA : a.state = AGENT_STATE.AVAILABLE := by
                cases ha : a.state
                · rfl
                · exact absurd ha hs
              have hav : (applySteps st
                  (sasSteps k AGENT_STATE.UNAVAILABLE now a.skills)).avail s =
                  if s ∈ a.skills then aerase (st.avail s) k else st.avail s :=
                sas_apply_avail_unavail k now a.skills st s
              rw [hav, hag]
              by_cases hk' : k' = k
              · subst hk'
                constructor
                · intro hmem
                  by_cases hss : s ∈ a.skills
                  · rw [if_pos hss] at hmem
                    exact absurd rfl (mem_zmembers_aerase.mp hmem).2
                  · rw [if_neg hss] at hmem
                    rcases (hidx s k').mp hmem with ⟨a0, ha0, _, hsk0⟩
                    rw [hls] at ha0
                    rw [← Option.some.inj ha0] at hsk0
                    exact absurd hsk0 hss
                · rintro ⟨a', ha', hav', _⟩
                  rw [alookup_aupdate_self, hls] at ha'
                  simp only [Option.map_some'] at ha'
                  rw [← Option.some.inj ha'] at hav'
                  exact AGENT_STATE.noConfusion hav'
              · have hlk' : alookup (aupdate st.agents k
                    (fun a0 => { a0 with state := AGENT_STATE.UNAVAILABLE })) k' =
                    alookup st.agents k' := alookup_aupdate_ne _ _ hk'
                by_cases hss : s ∈ a.skills
                · rw [if_pos hss]
                  constructor
                  · intro hmem
                    rcases (hidx s k').mp (mem_zmembers_aerase.mp hmem).1 with ⟨a0, ha0, hav0, hsk0⟩
                    refine ⟨a0, ?_, hav0, hsk0⟩
                    rw [hlk']
                    exact ha0
                  · rintro ⟨a', ha', hav', hsk'⟩
                    rw [hlk'] at ha'
                    refine mem_zmembers_aerase.mpr
                      ⟨(hidx s k').mpr ⟨a', ha', hav', hsk'⟩, hk'⟩
                · rw [if_neg hss]
                  rw [hlk']
                  exact hidx s k'

/-- `create_agent` with a duplicate-free skills list preserves the agent
invariant (the new agent starts `UNAVAILABLE` and indexed nowhere). -/
theorem create_agent_inv (st : Store) (k f l : String) (skills : List String)
    (hnodup : skills.Nodup) (hinv : AgentInv st) :
    AgentInv (create_agent st k f l skills).1 := by
  obtain ⟨hnd, hlf, hidx⟩ := hinv
  by_cases hl : st.locks (lockName k)
  · simp only [create_agent, hl, if_true]
    exact ⟨hnd, hlf, hidx⟩
  · simp only [create_agent, hl, Bool.false_eq_true, if_false]
    match hls : alookup st.agents k with
    | some a0 =>
      exact ⟨hnd, hlf, hidx⟩
    | none =>
      simp only
      refine ⟨?_, hlf, ?_⟩
      · intro k' a' ha'
        by_cases hk' : k' = k
        · subst hk'
          rw [alookup_aset_self] at ha'
          rw [← Option.some.inj ha']
          exact hnodup
        · rw [alookup_aset_ne _ _ hk'] at ha'
          exact hnd k' a' ha'
      · intro s k'
        by_cases hk' : k' = k
        · subst hk'
          constructor
          · intro hmem
            rcases (hidx s k').mp hmem with ⟨a0, ha0, _, _⟩
            rw [hls] at ha0
            exact Option.noConfusion ha0
          · rintro ⟨a', ha', hav', _⟩
            rw [alookup_aset_self] at ha'
            rw [← Option.some.inj ha'] at hav'
            exact AGENT_STATE.noConfusion hav'
        · rw [show alookup (aset st.agents k
              ⟨k, f, l, skills, AGENT_STATE.UNAVAILABLE⟩) k' = alookup st.agents k' from
              alookup_aset_ne _ _ hk']
          exact hidx s k'

/-- `delete_agent` preserves the agent invariant (the record and every index
entry of the agent disappear together). -/
theorem delete_agent_inv (st : Store) (k : String) (hinv : AgentInv st) :
    AgentInv (delete_agent st k).1 := by
  obtain ⟨hnd, hlf, hidx⟩ := hinv
  by_cases hl : st.locks (lockName k)
  · simp only [delete_agent, hl, if_true]
    exact ⟨hnd, hlf, hidx⟩
  · simp only [delete_agent, hl, Bool.false_eq_true, if_false]
    match hls : alookup st.agents k with
    | none =>
      exact ⟨hnd, hlf, hidx⟩
    | some a =>
      simp only
      have hAgentsFold :
          (a.skills.foldl (fun acc sk => updAvail acc sk (fun z => aerase z k)) st).agents =
            st.agents :=
        foldl_agents_eq (fun acc sk => updAvail acc sk (fun z => aerase z k))
          (fun st x => rfl) a.skills st
      have hLocksFold :
          (a.skills.foldl (fun acc sk => updAvail acc sk (fun z => aerase z k)) st).locks =
            st.locks :=
        foldl_locks_eq (fun acc sk => updAvail acc sk (fun z => aerase z k))
          (fun st x => rfl) a.skills st
      refine ⟨?_, ?_, ?_⟩
      · intro k' a' ha'
        simp only at ha'
        rw [hAgentsFold] at ha'
        by_cases hk' : k' = k
        · subst hk'
          rw [alookup_aerase_self] at ha'
          exact Option.noConfusion ha'
        · rw [alookup_aerase_ne _ hk'] at ha'
          exact hnd k' a' ha'
      · intro n
        simp only
        rw [hLocksFold]
        exact hlf n
      · intro s k'
        simp only
        rw [hAgentsFold, remAvailFold_avail k a.skills st s]
        by_cases hk' : k' = k
        · subst hk'
          constructor
          · intro hmem
            by_cases hss : s ∈ a.skills
            · rw [if_pos hss] at hmem
              exact absurd rfl (mem_zmembers_aerase.mp hmem).2
            · rw [if_neg hss] at hmem
              rcases (hidx s k').mp hmem with ⟨a0, ha0, _, hsk0⟩
              rw [hls] at ha0
              rw [← Option.some.inj ha0] at hsk0
              exact absurd hsk0 hss
          · rintro ⟨a', ha', _, _⟩
            rw [alookup_aerase_self] at ha'
            exact Option.noConfusion ha'
        · rw [show alookup (aerase st.agents k) k' = alookup st.agents k' from
            alookup_aerase_ne _ hk']
          by_cases hss : s ∈ a.skills
          · rw [if_pos hss]
            constructor
            · intro hmem
              exact (hidx s k').mp (mem_zmembers_aerase.mp hmem).1
            · intro hex
              exact mem_zmembers_aerase.mpr ⟨(hidx s k').mpr hex, hk'⟩
          · rw [if_neg hss]
            exact hidx s k'

/-- `change_agent_info` preserves the agent invariant (it touches neither
`skills` nor `state`). -/
theorem change_agent_info_inv (st : Store) (k f l : String) (hinv : AgentInv st) :
    AgentInv (change_agent_info st k f l).1 := by
  obtain ⟨hnd, hlf, hidx⟩ := hinv
  match hls : alookup st.agents k with
  | none =>
    simp only [change_agent_info, hls]
    exact ⟨hnd, hlf, hidx⟩
  | some a =>
    simp only [change_agent_info, hls]
    refine ⟨?_, hlf, ?_⟩
    · intro k' a' ha'
      by_cases hk' : k' = k
      · subst hk'
        rw [alookup_aupdate_self, hls] at ha'
        simp only [Option.map_some'] at ha'
        have : a'.skills = a.skills := by rw [← Option.some.inj ha']
        rw [this]
        exact hnd k' a hls
      · rw [alookup_aupdate_ne _ _ hk'] at ha'
        exact hnd k' a' ha'
    · intro s k'
      by_cases hk' : k' = k
      · subst hk'
        rw [show alookup (aupdate st.agents k'
            (fun a0 => { a0 with fname := f, lname := l })) k' =
            (alookup st.agents k').map (fun a0 => { a0 with fname := f, lname := l }) from
            alookup_aupdate_self _ _ _]
        rw [hls]
        simp only [Option.map_some']
        constructor
        · intro hmem
          rcases (hidx s k').mp hmem with ⟨a0, ha0, hav0, hsk0⟩
          rw [hls] at ha0
          rw [← Option.some.inj ha0] at hav0 hsk0
          exact ⟨{ a with fname := f, lname := l }, rfl, hav0, hsk0⟩
        · rintro ⟨a', ha', hav', hsk'⟩
          rw [← Option.some.inj ha'] at hav' hsk'
          exact (hidx s k').mpr ⟨a, hls, hav', hsk'⟩
      · rw [show alookup (aupdate st.agents k
            (fun a0 => { a0 with fname := f, lname := l })) k' = alookup st.agents k' from
            alookup_aupdate_ne _ _ hk']
        exact hidx s k'

/-- `add_agent_skill` preserves the agent invariant provided the skill is not
already on the agent's list (the restriction the correction of C3 adds). -/
theorem add_agent_skill_inv (st : Store) (k s0 : String) (now : Nat)
    (hnew : ∀ a, alookup st.agents k = some a → s0 ∉ a.skills)
    (hinv : AgentInv st) : AgentInv (add_agent_skill st k s0 now).1 := by
  obtain ⟨hnd, hlf, hidx⟩ := hinv
  by_cases hl : st.locks (lockName k)
  · simp only [add_agent_skill, hl, if_true]
    exact ⟨hnd, hlf, hidx⟩
  · simp only [add_agent_skill, hl, Bool.false_eq_true, if_false]
    match hls : alookup st.agents k with
    | none =>
      exact ⟨hnd, hlf, hidx⟩
    | some a =>
      simp only
      have hnewa : s0 ∉ a.skills := hnew a hls
      have hndA : (a.skills ++ [s0]).Nodup := by
        refine List.Nodup.append (hnd k a hls) (List.nodup_singleton s0) ?_
        intro x hx hx'
        rw [List.mem_singleton] at hx'
        subst hx'
        exact hnewa hx
      have hSkNodup : SkillsNodup { st with agents := (aupdate st.agents k
          (fun a0 => { a0 with skills := a0.skills ++ [s0] })) } := by
        intro k' a' ha'
        simp only at ha'
        by_cases hk' : k' = k
        · subst hk'
          rw [alookup_aupdate_self, hls] at ha'
          simp only [Option.map_some'] at ha'
          have : a'.skills = a.skills ++ [s0] := by rw [← Option.some.inj ha']
          rw [this]
          exact hndA
        · rw [alookup_aupdate_ne _ _ hk'] at ha'
          exact hnd k' a' ha'
      by_cases hstA : a.state = AGENT_STATE.AVAILABLE
      · rw [if_pos hstA]
        refine ⟨hSkNodup, hlf, ?_⟩
        intro s k'
        have hAvail : (updAvail { st with agents := (aupdate st.agents k
            (fun a0 => { a0 with skills := a0.skills ++ [s0] })) } s0
            (fun z => aset z k now)).avail s =
            if s = s0 then aset (st.avail s) k now else st.avail s := rfl
        have hAgents : (updAvail { st with agents := (aupdate st.agents k
            (fun a0 => { a0 with skills := a0.skills ++ [s0] })) } s0
            (fun z => aset z k now)).agents =
            aupdate st.agents k (fun a0 => { a0 with skills := a0.skills ++ [s0] }) := rfl
        rw [hAvail, hAgents]
        by_cases hk' : k' = k
        · subst hk'
          rw [show alookup (aupdate st.agents k'
              (fun a0 => { a0 with skills := a0.skills ++ [s0] })) k' =
              (alookup st.agents k').map
                (fun a0 => { a0 with skills := a0.skills ++ [s0] }) from
              alookup_aupdate_self _ _ _, hls]
          simp only [Option.map_some']
          by_cases hss : s = s0
          · subst hss
            rw [if_pos rfl]
            constructor
            · intro _
              exact ⟨{ a with skills := a.skills ++ [s] }, rfl, hstA,
                by simp⟩
            · intro _
              exact mem_zmembers_aset.mpr (Or.inr rfl)
          · rw [if_neg hss]
            constructor
            · intro hmem
              rcases (hidx s k').mp hmem with ⟨a0, ha0, hav0, hsk0⟩
              rw [hls] at ha0
              rw [← Option.some.inj ha0] at hav0 hsk0
              refine ⟨{ a with skills := a.skills ++ [s0] }, rfl, hav0, ?_⟩
              simp [hsk0]
            · rintro ⟨a', ha', hav', hsk'⟩
              rw [← Option.some.inj ha'] at hav' hsk'
              simp only at hsk'
              rw [List.mem_append, List.mem_singleton] at hsk'
              rcases hsk' with hsk' | hsk'
              · exact (hidx s k').mpr ⟨a, hls, hav', hsk'⟩
              · exact absurd hsk' hss
        · rw [show alookup (aupdate st.agents k
              (fun a0 => { a0 with skills := a0.skills ++ [s0] })) k' =
              alookup st.agents k' from alookup_aupdate_ne _ _ hk']
          by_cases hss : s = s0
          · subst hss
            rw [if_pos rfl]
            constructor
            · intro hmem
              rcases mem_zmembers_aset.mp hmem with hmem | hmem
              · exact (hidx s k').mp hmem
              · exact absurd hmem hk'
            · intro hex
              exact mem_zmembers_aset.mpr (Or.inl ((hidx s k').mpr hex))
          · rw [if_neg hss]
            exact hidx s k'
      · rw [if_neg hstA]
        have hstU : a.state = AGENT_STATE.UNAVAILABLE := by
          cases ha : a.state
          · exact absurd ha hstA
          · rfl
        refine ⟨hSkNodup, hlf, ?_⟩
        intro s k'
        simp only
        by_cases hk' : k' = k
        · subst hk'
          rw [show alookup (aupdate st.agents k'
              (fun a0 => { a0 with skills := a0.skills ++ [s0] })) k' =
              (alookup st.agents k').map
                (fun a0 => { a0 with skills := a0.skills ++ [s0] }) from
              alookup_aupdate_self _ _ _, hls]
          simp only [Option.map_some']
          constructor
          · intro hmem
            rcases (hidx s k').mp hmem with ⟨a0, ha0, hav0, _⟩
            rw [hls] at ha0
            rw [← Option.some.inj ha0] at hav0
            exact absurd hav0 hstA
          · rintro ⟨a', ha', hav', _⟩
            rw [← Option.some.inj ha'] at hav'
            simp only at hav'
            exact absurd hav' hstA
        · rw [show alookup (aupdate st.agents k
              (fun a0 => { a0 with skills := a0.skills ++ [s0] })) k' =
              alookup st.agents k' from alookup_aupdate_ne _ _ hk']
          exact hidx s k'

/-- `delete_agent_skill` preserves the agent invariant: when the skill is
present it erases its (under `SkillsNodup`, only) occurrence and removes the
agent from that skill's index. -/
theorem delete_agent_skill_inv (st : Store) (k s0 : String) (hinv : AgentInv st) :
    AgentInv (delete_agent_skill st k s0).1 := by
  obtain ⟨hnd, hlf, hidx⟩ := hinv
  by_cases hl : st.locks (lockName k)
  · simp only [delete_agent_skill, hl, if_true]
    exact ⟨hnd, hlf, hidx⟩
  · simp only [delete_agent_skill, hl, Bool.false_eq_true, if_false]
    match hls : alookup st.agents k with
    | none =>
      exact ⟨hnd, hlf, hidx⟩
    | some a =>
      simp only
      by_cases hsk : s0 ∈ a.skills
      · rw [if_pos hsk]
        have hndk := hnd k a hls
        refine ⟨?_, hlf, ?_⟩
        · intro k' a' ha'
          simp only [updAvail] at ha'
          by_cases hk' : k' = k
          · subst hk'
            rw [alookup_aupdate_self, hls] at ha'
            simp only [Option.map_some'] at ha'
            have : a'.skills = a.skills.erase s0 := by rw [← Option.some.inj ha']
            rw [this]
            exact List.Nodup.erase s0 hndk
          · rw [alookup_aupdate_ne _ _ hk'] at ha'
            exact hnd k' a' ha'
        · intro s k'
          have hAvail : (updAvail { st with agents := (aupdate st.agents k
              (fun a0 => { a0 with skills := a0.skills.erase s0 })) } s0
              (fun z => aerase z k)).avail s =
              if s = s0 then aerase (st.avail s) k else st.avail s := rfl
          have hAgents : (updAvail { st with agents := (aupdate st.agents k
              (fun a0 => { a0 with skills := a0.skills.erase s0 })) } s0
              (fun z => aerase z k)).agents =
              aupdate st.agents k (fun a0 => { a0 with skills := a0.skills.erase s0 }) := rfl
          rw [hAvail, hAgents]
          by_cases hk' : k' = k
          · subst hk'
            rw [show alookup (aupdate st.agents k'
                (fun a0 => { a0 with skills := a0.skills.erase s0 })) k' =
                (alookup st.agents k').map
                  (fun a0 => { a0 with skills := a0.skills.erase s0 }) from
                alookup_aupdate_self _ _ _, hls]
            simp only [Option.map_some']
            by_cases hss : s = s0
            · subst hss
              rw [if_pos rfl]
              constructor
              · intro hmem
                exact absurd rfl (mem_zmembers_aerase.mp hmem).2
              · rintro ⟨a', ha', _, hsk'⟩
                rw [← Option.some.inj ha'] at hsk'
                simp only at hsk'
                rcases (List.Nodup.mem_erase_iff hndk).mp hsk' with ⟨hne, _⟩
                exact absurd rfl hne
            · rw [if_neg hss]
              constructor
              · intro hmem
                rcases (hidx s k').mp hmem with ⟨a0, ha0, hav0, hsk0⟩
                rw [hls] at ha0
                rw [← Option.some.inj ha0] at hav0 hsk0
                refine ⟨{ a with skills := a.skills.erase s0 }, rfl, hav0, ?_⟩
                simp only
                exact (List.mem_erase_of_ne hss).mpr hsk0
              · rintro ⟨a', ha', hav', hsk'⟩
                rw [← Option.some.inj ha'] at hav' hsk'
                simp only at hsk'
                exact (hidx s k').mpr ⟨a, hls, hav', (List.mem_erase_of_ne hss).mp hsk'⟩
          · rw [show alookup (aupdate st.agents k
                (fun a0 => { a0 with skills := a0.skills.erase s0 })) k' =
                alookup st.agents k' from alookup_aupdate_ne _ _ hk']
            by_cases hss : s = s0
            · subst hss
              rw [if_pos rfl]
              constructor
              · intro hmem
                exact (hidx s k').mp (mem_zmembers_aerase.mp hmem).1
              · intro hex
                exact mem_zmembers_aerase.mpr ⟨(hidx s k').mpr hex, hk'⟩
            · rw [if_neg hss]
              exact hidx s k'
      · rw [if_neg hsk]
        exact ⟨hnd, hlf, hidx⟩

/-- The scan phase of `delete_skill`: folding `delete_agent_skill` over a key
list that covers every remaining holder of the skill restores the invariant,
given that the skill's index was already emptied. -/
theorem delete_skill_fold (skill : String) :
    ∀ (ks : List String) (stm : Store),
    SkillsNodup stm → LocksFree stm →
    (∀ s' k, s' ≠ skill → (k ∈ zmembers (stm.avail s') ↔
      ∃ a, alookup stm.agents k = some a ∧ a.state = AGENT_STATE.AVAILABLE ∧ s' ∈ a.skills)) →
    stm.avail skill = [] →
    (∀ k a, alookup stm.agents k = some a → skill ∈ a.skills → k ∈ ks) →
    SkillsNodup (ks.foldl (fun acc k => (delete_agent_skill acc k skill).1) stm) ∧
    LocksFree (ks.foldl (fun acc k => (delete_agent_skill acc k skill).1) stm) ∧
    (∀ s' k, s' ≠ skill →
      (k ∈ zmembers ((ks.foldl (fun acc k => (delete_agent_skill acc k skill).1) stm).avail s') ↔
      ∃ a, alookup (ks.foldl (fun acc k => (delete_agent_skill acc k skill).1) stm).agents k =
          some a ∧ a.state = AGENT_STATE.AVAILABLE ∧ s' ∈ a.skills)) ∧
    (ks.foldl (fun acc k => (delete_agent_skill acc k skill).1) stm).avail skill = [] ∧
    (∀ k a, alookup (ks.foldl (fun acc k => (delete_agent_skill acc k skill).1) stm).agents k =
      some a → skill ∉ a.skills) := by
  intro ks
  induction ks with
  | nil =>
    intro stm hnd hlf hpart hempty hcover
    refine ⟨hnd, hlf, hpart, hempty, ?_⟩
    intro k a ha hcontra
    exact absurd (hcover k a ha hcontra) (List.not_mem_nil k)
  | cons k0 rest ih =>
    intro stm hnd hlf hpart hempty hcover
    rw [List.foldl_cons]
    have hl0 : stm.locks (lockName k0) = false := hlf (lockName k0)
    match hls : alookup stm.agents k0 with
    | none =>
      have heq : (delete_agent_skill stm k0 skill).1 = stm := by
        simp [delete_agent_skill, hl0, hls]
      rw [heq]
      refine ih stm hnd hlf hpart hempty ?_
      intro k a ha hin
      rcases List.mem_cons.mp (hcover k a ha hin) with hk | hk
      · subst hk
        rw [hls] at ha
        exact Option.noConfusion ha
      · exact hk
    | some a0 =>
      by_cases hsk : skill ∈ a0.skills
      · have hnd0 := hnd k0 a0 hls
        have heq : (delete_agent_skill stm k0 skill).1 =
            updAvail { stm with agents := (aupdate stm.agents k0
              (fun a => { a with skills := a.skills.erase skill })) } skill
              (fun z => aerase z k0) := by
          simp [delete_agent_skill, hl0, hls, hsk]
        rw [heq]
        refine ih _ ?_ ?_ ?_ ?_ ?_
        · intro k a ha
          simp only [updAvail] at ha
          by_cases hk : k = k0
          · subst hk
            rw [alookup_aupdate_self, hls] at ha
            simp only [Option.map_some'] at ha
            have : a.skills = a0.skills.erase skill := by rw [← Option.some.inj ha]
            rw [this]
            exact List.Nodup.erase skill hnd0
          · rw [alookup_aupdate_ne _ _ hk] at ha
            exact hnd k a ha
        · intro n
          exact hlf n
        · intro s' k hs'
          have hAvail : (updAvail { stm with agents := (aupdate stm.agents k0
              (fun a => { a with skills := a.skills.erase skill })) } skill
              (fun z => aerase z k0)).avail s' = stm.avail s' := by
            simp only [updAvail]
            rw [if_neg hs']
          have hAgents : (updAvail { stm with agents := (aupdate stm.agents k0
              (fun a => { a with skills := a.skills.erase skill })) } skill
              (fun z => aerase z k0)).agents =
              aupdate stm.agents k0 (fun a => { a with skills := a.skills.erase skill }) := rfl
          rw [hAvail, hAgents]
          by_cases hk : k = k0
          · subst hk
            rw [show alookup (aupdate stm.agents k
                (fun a => { a with skills := a.skills.erase skill })) k =
                (alookup stm.agents k).map
                  (fun a => { a with skills := a.skills.erase skill }) from
                alookup_aupdate_self _ _ _, hls]
            simp only [Option.map_some']
            constructor
            · intro hmem
              rcases (hpart s' k hs').mp hmem with ⟨a1, ha1, hav1, hsk1⟩
              rw [hls] at ha1
              rw [← Option.some.inj ha1] at hav1 hsk1
              refine ⟨{ a0 with skills := a0.skills.erase skill }, rfl, hav1, ?_⟩
              simp only
              exact (List.mem_erase_of_ne hs').mpr hsk1
            · rintro ⟨a1, ha1, hav1, hsk1⟩
              rw [← Option.some.inj ha1] at hav1 hsk1
              simp only at hsk1
              exact (hpart s' k hs').mpr
                ⟨a0, hls, hav1, (List.mem_erase_of_ne hs').mp hsk1⟩
          · rw [show alookup (aupdate stm.agents k0
                (fun a => { a with skills := a.skills.erase skill })) k =
                alookup stm.agents k from alookup_aupdate_ne _ _ hk]
            exact hpart s' k hs'
        · have hAvailSkill : (updAvail { stm with agents := (aupdate stm.agents k0
              (fun a => { a with skills := a.skills.erase skill })) } skill
              (fun z => aerase z k0)).avail skill = aerase (stm.avail skill) k0 := by
            simp [updAvail]
          rw [hAvailSkill, hempty]
          rfl
        · intro k a ha hin
          simp only [updAvail] at ha
          by_cases hk : k = k0
          · subst hk
            rw [alookup_aupdate_self, hls] at ha
            simp only [Option.map_some'] at ha
            have : a.skills = a0.skills.erase skill := by rw [← Option.some.inj ha]
            rw [this] at hin
            exact absurd rfl ((List.Nodup.mem_erase_iff hnd0).mp hin).1
          · rw [alookup_aupdate_ne _ _ hk] at ha
            rcases List.mem_cons.mp (hcover k a ha hin) with hkk | hkk
            · exact absurd hkk hk
            · exact hkk
      · have heq : (delete_agent_skill stm k0 skill).1 = stm := by
          simp [delete_agent_skill, hl0, hls, hsk]
        rw [heq]
        refine ih stm hnd hlf hpart hempty ?_
        intro k a ha hin
        rcases List.mem_cons.mp (hcover k a ha hin) with hk | hk
        · subst hk
          rw [hls] at ha
          rw [← Option.some.inj ha] at hin
          exact absurd hin hsk
        · exact hk

/-- `delete_skill` preserves the agent invariant: the index for the skill is
deleted, and the agent scan then strips the skill from every agent. -/
theorem scanDeleteSkill_eq_foldl (skill : String) :
    ∀ (ks : List String) (st : Store), (∀ n, st.locks n = false) →
    scanDeleteSkill skill st ks =
      (ks.foldl (fun acc k => (delete_agent_skill acc k skill).1) st, false) := by
  intro ks
  induction ks with
  | nil => intro st _; rfl
  | cons k rest ih =>
    intro st hlf
    obtain ⟨r, hr⟩ := das_not_raised skill (hlf (lockName k))
    rw [scanDeleteSkill_cons_ret rest hr, List.foldl_cons]
    refine ih (delete_agent_skill st k skill).1 ?_
    intro n
    rw [das_locks_eq]
    exact hlf n

theorem delete_skill_inv (st : Store) (skill : String) (hinv : AgentInv st) :
    AgentInv (delete_skill st skill).1 := by
  obtain ⟨hnd, hlf, hidx⟩ := hinv
  rw [delete_skill_store st skill,
    scanDeleteSkill_eq_foldl skill (st.agents.map Prod.fst)
      { st with avail := fun s => if s = skill then [] else st.avail s } (fun n => hlf n)]
  have hfold := delete_skill_fold skill
    (st.agents.map Prod.fst)
    { st with avail := fun s => if s = skill then [] else st.avail s }
    (fun k a ha => hnd k a ha) (fun n => hlf n)
    (by
      intro s' k hs'
      have : (({ st with avail := fun s => if s = skill then [] else st.avail s } : Store).avail
          s') = st.avail s' := by
        simp only
        rw [if_neg hs']
      rw [this]
      exact hidx s' k)
    (by simp)
    (by
      intro k a ha _
      exact mem_keys_of_alookup ha)
  obtain ⟨hnd', hlf', hpart', hempty', hclean'⟩ := hfold
  refine ⟨hnd', hlf', ?_⟩
  intro s k
  by_cases hs : s = skill
  · subst hs
    constructor
    · intro hmem
      rw [hempty'] at hmem
      simp [zmembers] at hmem
    · rintro ⟨a, ha, _, hsk⟩
      exact absurd hsk (hclean' k a ha)
  · exact hpart' s k hs

/-- Scanning `set_agent_state` over any key list preserves the invariant
(whether or not the scan raises midway). -/
theorem scanSetState_inv (target : AGENT_STATE) (now : Nat) :
    ∀ (ks : List String) (st : Store), AgentInv st →
    AgentInv (scanSetState target now st ks).1 := by
  intro ks
  induction ks with
  | nil => intro st hinv; exact hinv
  | cons k rest ih =>
    intro st hinv
    match hr : (set_agent_state st k target now).2 with
    | OpResult.raisedLockError =>
      rw [scanSetState_cons_raised target now rest hr]
      exact sas_inv st k target now hinv
    | OpResult.ret r =>
      rw [scanSetState_cons_ret target now rest hr]
      exact ih _ (sas_inv st k target now hinv)

/-- `set_acd_state` preserves the agent invariant: it is a scan of
`set_agent_state` calls. -/
theorem set_acd_state_inv (st : Store) (acd : ACD_STATE) (now : Nat) (hinv : AgentInv st) :
    AgentInv (set_acd_state st acd now).1 := by
  rw [set_acd_state_store st acd now]
  exact scanSetState_inv _ now (st.agents.map Prod.fst) st hinv

/-- The dispatcher's claim loop preserves the agent invariant (each attempt
is a `set_agent_state` call). -/
theorem tryClaim_inv (now : Nat) :
    ∀ (cs : List String) (st : Store), AgentInv st → AgentInv (tryClaim now st cs).1 := by
  intro cs
  induction cs with
  | nil => intro st hinv; exact hinv
  | cons k rest ih =>
    intro st hinv
    match hr : (set_agent_state st k AGENT_STATE.UNAVAILABLE now).2 with
    | OpResult.raisedLockError =>
      rw [tryClaim_cons_raised now rest hr]
      exact sas_inv st k AGENT_STATE.UNAVAILABLE now hinv
    | OpResult.ret r =>
      by_cases h : r.resp_type = RESPONSE_TYPE.OK
      · rw [tryClaim_cons_ok now rest hr h]
        exact sas_inv st k AGENT_STATE.UNAVAILABLE now hinv
      · rw [tryClaim_cons_fail now rest hr h]
        exact ih _ (sas_inv st k AGENT_STATE.UNAVAILABLE now hinv)

/-- A dispatcher iteration preserves the agent invariant. -/
theorem dispatch_inv (st : Store) (now : Nat) (hinv : AgentInv st) :
    AgentInv (dispatchIteration st now).1 := by
  match hq : zpopmin st.queue with
  | none =>
    have heq : dispatchIteration st now = (st, DispResult.idle) := by
      unfold dispatchIteration
      rw [hq]
    rw [heq]
    exact hinv
  | some ((ck0, sc), q') =>
    have hinv1 : AgentInv { st with queue := q' } :=
      agentInv_congr rfl (fun s => rfl) rfl hinv
    match hc0 : alookup ({ st with queue := q' } : Store).contacts ck0 with
    | none =>
      have heq : dispatchIteration st now = ({ st with queue := q' }, DispResult.errored ck0) := by
        unfold dispatchIteration
        rw [hq]
        dsimp only
        rw [hc0]
      rw [heq]
      exact hinv1
    | some c0 =>
      match hz : zinterAll (c0.skills.map ({ st with queue := q' } : Store).avail) with
      | none =>
        have heq : dispatchIteration st now =
            ({ st with queue := q' }, DispResult.errored ck0) := by
          unfold dispatchIteration
          rw [hq]
          dsimp only
          rw [hc0]
          dsimp only
          rw [hz]
        rw [heq]
        exact hinv1
      | some cands =>
        have hinv2 : AgentInv (tryClaim now { st with queue := q' } (cands.map Prod.fst)).1 :=
          tryClaim_inv now (cands.map Prod.fst) { st with queue := q' } hinv1
        match htc : tryClaim now { st with queue := q' } (cands.map Prod.fst) with
        | (st2, ClaimOutcome.raised) =>
          rw [htc] at hinv2
          have heq : dispatchIteration st now = (st2, DispResult.errored ck0) := by
            unfold dispatchIteration
            rw [hq]
            dsimp only
            rw [hc0]
            dsimp only
            rw [hz]
            dsimp only
            rw [htc]
          rw [heq]
          exact hinv2
        | (st2, ClaimOutcome.winner winner) =>
          rw [htc] at hinv2
          have heq : dispatchIteration st now =
              ({ st2 with contacts := (aupdate st2.contacts ck0
                  (fun cc => { cc with agent := some winner, state := CONTACT_STATE.ASSIGNED })) },
               DispResult.assigned ck0 winner) := by
            unfold dispatchIteration
            rw [hq]
            dsimp only
            rw [hc0]
            dsimp only
            rw [hz]
            dsimp only
            rw [htc]
          rw [heq]
          exact agentInv_congr rfl (fun s => rfl) rfl hinv2
        | (st2, ClaimOutcome.exhausted) =>
          rw [htc] at hinv2
          match hr2 : alookup st2.contacts ck0 with
          | none =>
            have heq : dispatchIteration st now = (st2, DispResult.errored ck0) := by
              unfold dispatchIteration
              rw [hq]
              dsimp only
              rw [hc0]
              dsimp only
              rw [hz]
              dsimp only
              rw [htc]
              dsimp only
              rw [hr2]
            rw [heq]
            exact hinv2
          | some c2 =>
            by_cases hdone : c2.state = CONTACT_STATE.COMPLETE
            · have heq : dispatchIteration st now = (st2, DispResult.dropped ck0) := by
                unfold dispatchIteration
                rw [hq]
                dsimp only
                rw [hc0]
                dsimp only
                rw [hz]
                dsimp only
                rw [htc]
                dsimp only
                rw [hr2]
                dsimp only
                rw [if_pos hdone]
              rw [heq]
              exact hinv2
            · have heq : dispatchIteration st now =
                  ({ st2 with queue := aset st2.queue ck0 (sc + 1000) },
                   DispResult.requeued ck0 (sc + 1000)) := by
                unfold dispatchIteration
                rw [hq]
                dsimp only
                rw [hc0]
                dsimp only
                rw [hz]
                dsimp only
                rw [htc]
                dsimp only
                rw [hr2]
                dsimp only
                rw [if_neg hdone]
              rw [heq]
              exact agentInv_congr rfl (fun s => rfl) rfl hinv2

/-- One sequentially completed operation or dispatcher iteration, restricted
as the correction of C3 requires: `create_agent` takes a duplicate-free
skills list and `add_agent_skill` is never called with a skill the agent
already has.  (`createContactRStep` carries the freshness of the uuid key.) -/
inductive RStep : Store → Store → Prop where
  | createContactRStep (st : Store) (ck : String) (skills : List String) (now : Nat)
      (hfresh : alookup st.contacts ck = none) :
      RStep st (create_contact st ck skills now).1
  | completeContactRStep (st : Store) (ck : String) :
      RStep st (complete_contact st ck).1
  | getContactRStep (st : Store) (ck : String) :
      RStep st (get_contact st ck).1
  | createAgentRStep (st : Store) (k f l : String) (skills : List String)
      (hnodup : skills.Nodup) :
      RStep st (create_agent st k f l skills).1
  | deleteAgentRStep (st : Store) (k : String) :
      RStep st (delete_agent st k).1
  | setAgentStateRStep (st : Store) (k : String) (target : AGENT_STATE) (now : Nat) :
      RStep st (set_agent_state st k target now).1
  | changeAgentInfoRStep (st : Store) (k f l : String) :
      RStep st (change_agent_info st k f l).1
  | addAgentSkillRStep (st : Store) (k s : String) (now : Nat)
      (hnew : ∀ a, alookup st.agents k = some a → s ∉ a.skills) :
      RStep st (add_agent_skill st k s now).1
  | deleteAgentSkillRStep (st : Store) (k s : String) :
      RStep st (delete_agent_skill st k s).1
  | deleteSkillRStep (st : Store) (s : String) :
      RStep st (delete_skill st s).1
  | setAcdStateRStep (st : Store) (acd : ACD_STATE) (now : Nat) :
      RStep st (set_acd_state st acd now).1
  | dispatchRStep (st : Store) (now : Nat) :
      RStep st (dispatchIteration st now).1

/-- Stores reachable from the empty store by such steps. -/
inductive ReachableR : Store → Prop where
  | empty : ReachableR emptyStore
  | step {st st' : Store} : ReachableR st → RStep st st' → ReachableR st'

/-- Every restricted step preserves the agent invariant. -/
theorem rstep_inv (st st' : Store) (hstep : RStep st st') (hinv : AgentInv st) :
    AgentInv st' := by
  cases hstep with
  | createContactRStep ck skills now hfresh =>
    exact agentInv_congr rfl (fun s => rfl) rfl hinv
  | completeContactRStep ck =>
    match hc : alookup st.contacts ck with
    | none =>
      have heq : (complete_contact st ck).1 = st := by simp [complete_contact, hc]
      rw [heq]
      exact hinv
    | some c =>
      have heq : (complete_contact st ck).1 = { st with contacts := (aupdate st.contacts ck
          (fun c0 => { c0 with state := CONTACT_STATE.COMPLETE })) } := by
        simp [complete_contact, hc]
      rw [heq]
      exact agentInv_congr rfl (fun s => rfl) rfl hinv
  | getContactRStep ck =>
    have heq : (get_contact st ck).1 = st := by
      match hc : alookup st.contacts ck with
      | none => simp [get_contact, hc]
      | some c => simp [get_contact, hc]
    rw [heq]
    exact hinv
  | createAgentRStep k f l skills hnodup =>
    exact create_agent_inv st k f l skills hnodup hinv
  | deleteAgentRStep k =>
    exact delete_agent_inv st k hinv
  | setAgentStateRStep k target now =>
    exact sas_inv st k target now hinv
  | changeAgentInfoRStep k f l =>
    exact change_agent_info_inv st k f l hinv
  | addAgentSkillRStep k s now hnew =>
    exact add_agent_skill_inv st k s now hnew hinv
  | deleteAgentSkillRStep k s =>
    exact delete_agent_skill_inv st k s hinv
  | deleteSkillRStep s =>
    exact delete_skill_inv st s hinv
  | setAcdStateRStep acd now =>
    exact set_acd_state_inv st acd now hinv
  | dispatchRStep now =>
    exact dispatch_inv st now hinv

/-- CORRECTED C3: in every quiescent state reachable by a finite sequence of
sequentially completed operations (and dispatcher iterations) from the empty
store — *provided* `create_agent` is given duplicate-free skill lists and
`add_agent_skill` never appends a skill the agent already has — an agent `k`
is a member of `avail:{s}` iff its document exists, its state is `AVAILABLE`,
and `s` occurs in its skills list.  Without that restriction the claim is
false: appending a duplicate skill and then deleting it pops only the first
occurrence but removes the agent from the index entirely (see the
counterexample). -/
theorem C3_index_state_invariant (st : Store) (hreach : ReachableR st) :
    ∀ s k, k ∈ zmembers (st.avail s) ↔
      ∃ a, alookup st.agents k = some a ∧ a.state = AGENT_STATE.AVAILABLE ∧ s ∈ a.skills := by
  have hinv : AgentInv st := by
    induction hreach with
    | empty => exact agentInv_empty
    | step hre hstep ih => exact rstep_inv _ _ hstep ih
  exact hinv.2.2

/-- The duplicate-append scenario: add a skill the agent already has while it
is `AVAILABLE`, then delete that skill once. -/
def c3Store : Store :=
  (delete_agent_skill ((add_agent_skill ((set_agent_state
    ((create_agent emptyStore "agent:1" "Ann" "Lee" ["s1"]).1)
    "agent:1" AGENT_STATE.AVAILABLE 5).1) "agent:1" "s1" 6).1) "agent:1" "s1").1

/-- C3 counterexample: after `create_agent`, `set_agent_state(AVAILABLE)`,
`add_agent_skill("s1")` (already present — the code appends a duplicate) and
`delete_agent_skill("s1")` (pops only the first occurrence but `ZREM`s the
agent from the index entirely), the agent is `AVAILABLE` with `"s1"` still in
its skills list yet absent from `avail:{s1}` — the Index⇔State equivalence
fails in a state reachable by plain sequentially completed operations. -/
theorem C3_counterexample :
    (alookup c3Store.agents "agent:1").map Agent.state = some AGENT_STATE.AVAILABLE ∧
    (alookup c3Store.agents "agent:1").map Agent.skills = some ["s1"] ∧
    "agent:1" ∉ zmembers (c3Store.avail "s1") := by
  refine ⟨by decide, by decide, by decide⟩

theorem C3_index_state_invariant_witness :
    ("agent:1" ∈ zmembers (w6Store.avail "s1") ↔
      ∃ a, alookup w6Store.agents "agent:1" = some a ∧ a.state = AGENT_STATE.AVAILABLE ∧
        "s1" ∈ a.skills) ∧
    ("agent:2" ∈ zmembers (w6Store.avail "s1") ↔
      ∃ a, alookup w6Store.agents "agent:2" = some a ∧ a.state = AGENT_STATE.AVAILABLE ∧
        "s1" ∈ a.skills) := by
  have hreach : ReachableR w6Store :=
    ReachableR.step
      (ReachableR.step
        (ReachableR.step ReachableR.empty
          (RStep.createAgentRStep emptyStore "agent:1" "Ann" "Lee" ["s1"] (by decide)))
        (RStep.setAgentStateRStep ((create_agent emptyStore "agent:1" "Ann" "Lee" ["s1"]).1)
          "agent:1" AGENT_STATE.AVAILABLE 5))
      (RStep.createContactRStep ((set_agent_state
          ((create_agent emptyStore "agent:1" "Ann" "Lee" ["s1"]).1)
          "agent:1" AGENT_STATE.AVAILABLE 5).1) "contact:1" ["s1"] 10 (by decide))
  exact ⟨C3_index_state_invariant w6Store hreach "s1" "agent:1",
    C3_index_state_invariant w6Store hreach "s1" "agent:2"⟩
